import Mathlib

/-!
Verification of the medkit core: span algebra and provenance tracing.

The span algebra (`medkit/core/text/span.py`) is modelled from the spec
(§3, §4.1) and checked against the repository's own test suite
(`tests/core/text/test_span.py`).  The provenance tracer is translated
from `medkit/core/prov_tracer.py`; the provenance graph and store it
relies on (`medkit/core/_prov_graph.py`, `medkit/core/prov_store.py`)
are modelled from the spec (§3, §4.2).  Text is modelled as `List Char`.
-/

set_option maxHeartbeats 1600000

namespace Medkit

/-! ## Span data model (modelled from the spec §3) -/

/-- Modelled from the spec: `Span(start, end)` from the missing
`medkit/core/text/span.py`, a half-open range into the original text. -/
structure Span where
  start : Nat
  stop : Nat
deriving DecidableEq, Repr

/-- Modelled from the spec: the tagged union of `Span` and
`AdditionalSpan(length, replaced_spans)` (the spec's `Composite`) from the
missing `medkit/core/text/span.py`. -/
inductive AnySpan where
  | span : Span → AnySpan
  | additionalSpan : Nat → List Span → AnySpan
deriving DecidableEq, Repr

/-- Number of characters of derived text covered by one span. -/
def AnySpan.length : AnySpan → Nat
  | .span s => s.stop - s.start
  | .additionalSpan l _ => l

/-- Total derived-text length covered by a span sequence. -/
def sumLengths (spans : List AnySpan) : Nat :=
  (spans.map AnySpan.length).sum

/-- Left part of a span cut at relative offset `k`. -/
def cutLeft : AnySpan → Nat → AnySpan
  | .span s, k => .span ⟨s.start, s.start + k⟩
  | .additionalSpan _ r, k => .additionalSpan k r

/-- Right part of a span cut at relative offset `k`; an additional span
keeps its whole `replaced_spans` list on both sides of the cut. -/
def cutRight : AnySpan → Nat → AnySpan
  | .span s, k => .span ⟨s.start + k, s.stop⟩
  | .additionalSpan l r, k => .additionalSpan (l - k) r

/-- Modelled from the spec: split a span sequence at relative offset `k`
of the derived text it covers, slicing the span the offset falls into.
Zero-length parts are never emitted. -/
def splitSpans : List AnySpan → Nat → List AnySpan × List AnySpan
  | [], _ => ([], [])
  | sp :: sps, k =>
    if k = 0 then ([], sp :: sps)
    else if k < sp.length then ([cutLeft sp k], cutRight sp k :: sps)
    else
      let p := splitSpans sps (k - sp.length)
      (sp :: p.1, p.2)

/-- Original ranges referenced by a span sequence, used to build the
`replaced_spans` list of a new additional span: a plain span contributes
itself, an additional span contributes its whole `replaced_spans` list. -/
def replacedSpansOf : List AnySpan → List Span
  | [] => []
  | .span s :: rest => s :: replacedSpansOf rest
  | .additionalSpan _ r :: rest => r ++ replacedSpansOf rest

/-- Worker of `_replace_in_spans`, processing the sorted ranges left to
right: `off` is the coordinate of the derived text where the remaining
`spans` begin, accounting for the drift of the ranges already consumed. -/
def replaceInSpansFrom : List AnySpan → Nat → List (Nat × Nat) → List Nat → List AnySpan
  | spans, _, [], _ => spans
  | spans, _, _ :: _, [] => spans
  | spans, off, (a, b) :: rs, l :: ls =>
    let p1 := splitSpans spans (a - off)
    let p2 := splitSpans p1.2 (b - a)
    let newSpans := if l = 0 then [] else [AnySpan.additionalSpan l (replacedSpansOf p2.1)]
    p1.1 ++ newSpans ++ replaceInSpansFrom p2.2 b rs ls

/-- Modelled from the spec: `_replace_in_spans` from the missing
`medkit/core/text/span.py` (§4.1).  Ranges are sorted, non-overlapping
coordinates of the derived text; each range is replaced by an additional
span of the corresponding replacement length whose `replaced_spans` are
the original ranges the consumed text mapped to.  A zero replacement
length leaves no span at all, which is what `_remove_in_spans` relies on
to drop spans that become empty. -/
def _replace_in_spans (spans : List AnySpan) (ranges : List (Nat × Nat))
    (replacement_lengths : List Nat) : List AnySpan :=
  replaceInSpansFrom spans 0 ranges replacement_lengths

/-- Modelled from the spec: `_remove_in_spans`, i.e. replacement of every
range by a zero-length replacement (§4.1). -/
def _remove_in_spans (spans : List AnySpan) (ranges : List (Nat × Nat)) : List AnySpan :=
  _replace_in_spans spans ranges (ranges.map fun _ => 0)

/-- Modelled from the spec: `_extract_in_spans`, slicing the spans under
each range with no edit bookkeeping (§4.1). -/
def _extract_in_spans (spans : List AnySpan) (ranges : List (Nat × Nat)) : List AnySpan :=
  (ranges.map fun p => (splitSpans (splitSpans spans p.1).2 (p.2 - p.1)).1).flatten

/-- Modelled from the spec: `_insert_in_spans`, replacement at empty
ranges (§4.1). -/
def _insert_in_spans (spans : List AnySpan) (positions : List Nat) (lengths : List Nat) : List AnySpan :=
  _replace_in_spans spans (positions.map fun p => (p, p)) lengths

/-- Modelled from the spec: `_move_in_spans` (§4.1): extract the spans of
the range, remove them, and re-insert them at the destination offset,
which is shifted left by the length of the block when it points after the
removed range. -/
def _move_in_spans (spans : List AnySpan) (r : Nat × Nat) (dest : Nat) : List AnySpan :=
  let s := r.1
  let e := r.2
  let blk := (splitSpans (splitSpans spans s).2 (e - s)).1
  let rem := _remove_in_spans spans [(s, e)]
  let d := if e ≤ dest then dest - (e - s) else dest
  let p := splitSpans rem d
  p.1 ++ blk ++ p.2

/-! ## Text-level operations (modelled from the spec §4.1) -/

/-- Worker of `spliceText`, mirroring `replaceInSpansFrom` on the text. -/
def spliceTextFrom : List Char → Nat → List (Nat × Nat) → List (List Char) → List Char
  | text, _, [], _ => text
  | text, _, _ :: _, [] => text
  | text, off, (a, b) :: rs, rep :: reps =>
    text.take (a - off) ++ rep ++ spliceTextFrom (text.drop (b - off)) b rs reps

/-- Modelled from the spec: the text part of `replace`, substituting each
sorted range by its replacement string. -/
def spliceText (text : List Char) (ranges : List (Nat × Nat))
    (replacement_texts : List (List Char)) : List Char :=
  spliceTextFrom text 0 ranges replacement_texts

/-- Modelled from the spec: `replace(text, spans, ranges, replacement_texts)`. -/
def replace (text : List Char) (spans : List AnySpan) (ranges : List (Nat × Nat))
    (replacement_texts : List (List Char)) : List Char × List AnySpan :=
  (spliceText text ranges replacement_texts,
   _replace_in_spans spans ranges (replacement_texts.map List.length))

/-- Modelled from the spec: `remove(text, spans, ranges)`. -/
def remove (text : List Char) (spans : List AnySpan) (ranges : List (Nat × Nat)) :
    List Char × List AnySpan :=
  (spliceText text ranges (ranges.map fun _ => []), _remove_in_spans spans ranges)

/-- Text under a list of ranges, concatenated. -/
def extractText (text : List Char) (ranges : List (Nat × Nat)) : List Char :=
  (ranges.map fun p => (text.drop p.1).take (p.2 - p.1)).flatten

/-- Modelled from the spec: `extract(text, spans, ranges)`. -/
def extract (text : List Char) (spans : List AnySpan) (ranges : List (Nat × Nat)) :
    List Char × List AnySpan :=
  (extractText text ranges, _extract_in_spans spans ranges)

/-- Modelled from the spec: `insert(text, spans, positions, insertion_texts)`,
replacement at empty ranges. -/
def insert (text : List Char) (spans : List AnySpan) (positions : List Nat)
    (insertion_texts : List (List Char)) : List Char × List AnySpan :=
  replace text spans (positions.map fun p => (p, p)) insertion_texts

/-- Modelled from the spec: `move(text, spans, range, destination_offset)`. -/
def move (text : List Char) (spans : List AnySpan) (r : Nat × Nat) (dest : Nat) :
    List Char × List AnySpan :=
  let s := r.1
  let e := r.2
  let blkT := (text.drop s).take (e - s)
  let remT := text.take s ++ text.drop e
  let d := if e ≤ dest then dest - (e - s) else dest
  (remT.take d ++ blkT ++ remT.drop d, _move_in_spans spans r dest)

/-! ## Provenance data model

`DataItem` and `OperationDescription` model the external collaborators of
§6: a data item is opaque to the core beyond its stable unique `uid`; an
operation description carries its `uid` plus uninterpreted metadata. -/

/-- An identifiable data item: opaque to the core beyond its `uid` (§6). -/
structure DataItem where
  uid : String
deriving DecidableEq, Repr

/-- An operation description: a stable `uid` plus uninterpreted metadata (§6). -/
structure OperationDescription where
  uid : String
  name : String
deriving DecidableEq, Repr

/-- Modelled from the spec: `ProvStore` from the missing
`medkit/core/prov_store.py` (§3): an identity map from uid to object,
mutated only through insert-if-absent.  Items are always registered under
their own `uid`, so the map is modelled as a list looked up by `uid`. -/
structure ProvStore where
  data_items : List DataItem
  op_descs : List OperationDescription
deriving DecidableEq, Repr

def ProvStore.storeDataItem (st : ProvStore) (d : DataItem) : ProvStore :=
  if st.data_items.any (fun x => x.uid = d.uid) then st
  else { st with data_items := st.data_items ++ [d] }

def ProvStore.storeOpDesc (st : ProvStore) (op : OperationDescription) : ProvStore :=
  if st.op_descs.any (fun x => x.uid = op.uid) then st
  else { st with op_descs := st.op_descs ++ [op] }

def ProvStore.getDataItem (st : ProvStore) (uid : String) : Option DataItem :=
  st.data_items.find? (fun x => x.uid = uid)

def ProvStore.getOpDesc (st : ProvStore) (uid : String) : Option OperationDescription :=
  st.op_descs.find? (fun x => x.uid = uid)

def createProvStore : ProvStore := ⟨[], []⟩

/-- Modelled from the spec: `ProvNode` from the missing
`medkit/core/_prov_graph.py` (§3): `operation_id` is absent for items
that were externally provided rather than produced by a traced
operation. -/
structure ProvNode where
  data_item_id : String
  operation_id : Option String
  source_ids : List String
  derived_ids : List String
deriving DecidableEq, Repr

/-- Modelled from the spec: `ProvGraph` from the missing
`medkit/core/_prov_graph.py` (§3): top-level nodes in insertion order,
plus named sub-graphs keyed by composite-operation id. -/
inductive ProvGraph where
  | mk : List ProvNode → List (String × ProvGraph) → ProvGraph

def ProvGraph.nodes : ProvGraph → List ProvNode
  | .mk ns _ => ns

def ProvGraph.subGraphs : ProvGraph → List (String × ProvGraph)
  | .mk _ sgs => sgs

def ProvGraph.hasNode (g : ProvGraph) (id : String) : Bool :=
  g.nodes.any (fun n => n.data_item_id = id)

def ProvGraph.getNode (g : ProvGraph) (id : String) : Option ProvNode :=
  g.nodes.find? (fun n => n.data_item_id = id)

/-- Append `target` to the `derived_ids` of the node keyed by `src`. -/
def addDerivedTo (ns : List ProvNode) (src target : String) : List ProvNode :=
  ns.map fun n =>
    if n.data_item_id = src then { n with derived_ids := n.derived_ids ++ [target] } else n

/-- Back-link one source of a new node `newId`: a source already present
gets `newId` appended to its `derived_ids`, a source never seen before
gets a stub node with no `operation_id`. -/
def addNodeStep (newId : String) (acc : List ProvNode) (src : String) : List ProvNode :=
  if acc.any (fun n => n.data_item_id = src) then addDerivedTo acc src newId
  else acc ++ [⟨src, none, [], [newId]⟩]

/-- Modelled from the spec: `ProvGraph.add_node` (§4.2).  The new node is
registered, and every source id is back-linked: a source that already has
a node gets `data_item_id` appended to its `derived_ids`; a source never
seen before gets a stub node with no `operation_id` — the spec's
"externally-provided source items" (§3), which the backward traversal of
`prov_tracer.py` recognises by their absent `operation_id` (§4.3). -/
def ProvGraph.addNode (g : ProvGraph) (data_item_id : String) (operation_id : Option String)
    (source_ids : List String) : ProvGraph :=
  .mk (source_ids.foldl (addNodeStep data_item_id)
    (g.nodes ++ [⟨data_item_id, operation_id, source_ids, []⟩])) g.subGraphs

def ProvGraph.hasSubGraph (g : ProvGraph) (operation_id : String) : Bool :=
  g.subGraphs.any (fun p => p.1 = operation_id)

def ProvGraph.getSubGraph (g : ProvGraph) (operation_id : String) : Option ProvGraph :=
  (g.subGraphs.find? (fun p => p.1 = operation_id)).map (fun p => p.2)

/-- Modelled from the spec: `ProvGraph.add_sub_graph` (§4.2); the caller
checks that the operation id does not already own a sub-graph. -/
def ProvGraph.addSubGraph (g : ProvGraph) (operation_id : String) (sub : ProvGraph) : ProvGraph :=
  .mk g.nodes (g.subGraphs ++ [(operation_id, sub)])

def createProvGraph : ProvGraph := .mk [] []

/-! ## Provenance tracer (translated from `medkit/core/prov_tracer.py`)

Python methods that mutate `self` and may raise are modelled as functions
returning the tracer state reached together with `Option String`: `none`
for normal return, `some msg` when the call raises — the caller still
holds the mutated object, exactly as after a Python exception. -/

/-- `Prov`: provenance query result joining a graph node against the store. -/
structure Prov where
  data_item : DataItem
  op_desc : Option OperationDescription
  source_data_items : List DataItem
  derived_data_items : List DataItem
deriving DecidableEq, Repr

/-- Error type of `get_prov` and `_build_prov_from_node`: `notFound` is
the distinct, catchable not-found error (`ValueError` in the source),
`storeMissing` a `KeyError` escaping a store lookup. -/
inductive ProvError where
  | notFound : String → ProvError
  | storeMissing : String → ProvError
deriving DecidableEq, Repr

/-- `ProvTracer`: the store shared with every sub-tracer, plus this
tracer's own graph. -/
structure ProvTracer where
  store : ProvStore
  graph : ProvGraph

def createProvTracer : ProvTracer := ⟨createProvStore, createProvGraph⟩

/-- `ProvTracer.add_prov`: the duplicate-id assertion fires before any
mutation, so a failing call returns the tracer unchanged. -/
def add_prov (t : ProvTracer) (data_item : DataItem) (op_desc : OperationDescription)
    (source_data_items : List DataItem) : ProvTracer × Option String :=
  if t.graph.hasNode data_item.uid then
    (t, some ("Provenance of data item with identifier " ++ data_item.uid
      ++ " was already added"))
  else
    let st := source_data_items.foldl (fun acc s => acc.storeDataItem s)
      ((t.store.storeDataItem data_item).storeOpDesc op_desc)
    ({ store := st,
       graph := t.graph.addNode data_item.uid (some op_desc.uid)
         (source_data_items.map (fun s => s.uid)) }, none)

/-- One step of the backward breadth-first traversal of
`_add_prov_from_sub_tracer_for_data_item`: dequeue an id, mark it seen,
append it to the collected sources when its node has no `operation_id`,
and enqueue its sources that are not yet seen.  The fuel argument is a
termination artifact only: `bfsFuel` below always suffices for the
executions considered, and `none` is returned if fuel runs out or a
dequeued id has no node in the sub-graph (a `KeyError` in Python). -/
def bfsSourceIds (g : ProvGraph) :
    Nat → List String → List String → List String → Option (List String)
  | 0, _, _, _ => none
  | _ + 1, srcs, _, [] => some srcs
  | fuel + 1, srcs, seen, nid :: queue =>
    let seen2 := if nid ∈ seen then seen else nid :: seen
    match g.getNode nid with
    | none => none
    | some node =>
      let srcs2 := if node.operation_id = none then srcs ++ [nid] else srcs
      bfsSourceIds g fuel srcs2 seen2
        (queue ++ node.source_ids.filter (fun uid => !seen2.contains uid))

/-- A generous fuel bound for `bfsSourceIds`, ample for the graphs built
in this development. -/
def bfsFuel (g : ProvGraph) : Nat :=
  (g.nodes.foldl (fun acc n => acc + n.source_ids.length + 1) 1) ^ (g.nodes.length + 1)

/-- `ProvTracer._add_prov_from_sub_tracer_for_data_item`: collapse the
backward closure of `data_item_id` inside `sub_graph` to a single node of
the main graph; `none` models an assertion failure or a `KeyError`. -/
def _add_prov_from_sub_tracer_for_data_item (g : ProvGraph) (data_item_id : String)
    (operation_id : String) (sub_graph : ProvGraph) : Option ProvGraph :=
  if g.hasNode data_item_id then none
  else if sub_graph.hasNode data_item_id then
    (bfsSourceIds sub_graph (bfsFuel sub_graph) [] [] [data_item_id]).map
      (fun source_ids => g.addNode data_item_id (some operation_id) source_ids)
  else none

/-- The `for data_item in data_items` loop of
`ProvTracer.add_prov_from_sub_tracer`, threading the main graph and
stopping at the first raise with the graph state reached. -/
def addProvFromSubTracerLoop (sub_graph : ProvGraph) (op_uid : String) :
    ProvGraph → List DataItem → ProvGraph × Option String
  | g, [] => (g, none)
  | g, d :: rest =>
    match g.getNode d.uid with
    | some node =>
      if node.operation_id = some op_uid then
        addProvFromSubTracerLoop sub_graph op_uid g rest
      else
        (g, some ("Trying to add provenance for sub graph for data item with uid "
          ++ d.uid ++ " that already has a node, but with different operation_id"))
    | none =>
      match _add_prov_from_sub_tracer_for_data_item g d.uid op_uid sub_graph with
      | some g2 => addProvFromSubTracerLoop sub_graph op_uid g2 rest
      | none => (g, some "assertion failed in _add_prov_from_sub_tracer_for_data_item")

/-- `ProvTracer.add_prov_from_sub_tracer`: store the operation
description, attach the sub-tracer's graph as a sub-graph (at most one
per operation id, §4.2), then process each output item in order.  The
`assert self.store is sub_tracer.store` of the source is an object
identity check with no observable effect on these states and is not
modelled. -/
def add_prov_from_sub_tracer (t : ProvTracer) (data_items : List DataItem)
    (op_desc : OperationDescription) (sub_tracer : ProvTracer) : ProvTracer × Option String :=
  let st := t.store.storeOpDesc op_desc
  if t.graph.hasSubGraph op_desc.uid then
    ({ store := st, graph := t.graph },
     some ("Sub graph for operation " ++ op_desc.uid ++ " was already added"))
  else
    let g0 := t.graph.addSubGraph op_desc.uid sub_tracer.graph
    let r := addProvFromSubTracerLoop sub_tracer.graph op_desc.uid g0 data_items
    ({ store := st, graph := r.1 }, r.2)

def has_prov (t : ProvTracer) (data_item_id : String) : Bool :=
  t.graph.hasNode data_item_id

def getOrError (e : ProvError) : Option α → Except ProvError α
  | none => .error e
  | some a => .ok a

/-- `ProvTracer._build_prov_from_node`: join a node against the store. -/
def _build_prov_from_node (t : ProvTracer) (node : ProvNode) : Except ProvError Prov := do
  let data_item ← getOrError (.storeMissing node.data_item_id)
    (t.store.getDataItem node.data_item_id)
  let op_desc ← match node.operation_id with
    | none => pure none
    | some opId => do
      let od ← getOrError (.storeMissing opId) (t.store.getOpDesc opId)
      pure (some od)
  let source_data_items ← node.source_ids.mapM
    (fun uid => getOrError (.storeMissing uid) (t.store.getDataItem uid))
  let derived_data_items ← node.derived_ids.mapM
    (fun uid => getOrError (.storeMissing uid) (t.store.getDataItem uid))
  pure { data_item, op_desc, source_data_items, derived_data_items }

/-- `ProvTracer.get_prov`: not-found ids raise the distinct catchable
`ValueError`, modelled by `ProvError.notFound`. -/
def get_prov (t : ProvTracer) (data_item_id : String) : Except ProvError Prov :=
  match t.graph.getNode data_item_id with
  | none => .error (.notFound data_item_id)
  | some node => _build_prov_from_node t node

def has_sub_prov_tracer (t : ProvTracer) (operation_id : String) : Bool :=
  t.graph.hasSubGraph operation_id

/-- `ProvTracer.get_sub_prov_tracer`: a view wrapping the sub-graph and
the same shared store. -/
def get_sub_prov_tracer (t : ProvTracer) (operation_id : String) : Option ProvTracer :=
  (t.graph.getSubGraph operation_id).map (fun sg => { store := t.store, graph := sg })

/-! ## Validity of range lists

`rangesOkFrom lo ranges hi` states that the ranges are sorted,
non-overlapping, start at or after `lo` and end at or before `hi` — the
usage contract of the multi-range span-algebra operations (§4.1). -/

def rangesOkFrom : Nat → List (Nat × Nat) → Nat → Prop
  | _, [], _ => True
  | lo, (a, b) :: rs, hi => lo ≤ a ∧ a ≤ b ∧ b ≤ hi ∧ rangesOkFrom b rs hi

instance rangesOkFromDec : (lo : Nat) → (rs : List (Nat × Nat)) → (hi : Nat) →
    Decidable (rangesOkFrom lo rs hi)
  | _, [], _ => isTrue trivial
  | _, (_, b) :: rs, hi =>
    have : Decidable (rangesOkFrom b rs hi) := rangesOkFromDec b rs hi
    inferInstanceAs (Decidable (_ ∧ _ ∧ _ ∧ _))

/-! ## Sum-of-lengths lemmas for the span algebra -/

theorem sumLengths_nil : sumLengths [] = 0 := rfl

theorem sumLengths_cons (sp : AnySpan) (sps : List AnySpan) :
    sumLengths (sp :: sps) = sp.length + sumLengths sps := by
  simp [sumLengths]

theorem sumLengths_append (xs ys : List AnySpan) :
    sumLengths (xs ++ ys) = sumLengths xs + sumLengths ys := by
  simp [sumLengths]

theorem length_cutLeft (sp : AnySpan) (k : Nat) (h : k < sp.length) :
    (cutLeft sp k).length = k := by
  cases sp with
  | span s =>
    simp only [cutLeft, AnySpan.length] at h ⊢
    omega
  | additionalSpan l r => simp [cutLeft, AnySpan.length]

theorem length_cutRight (sp : AnySpan) (k : Nat) :
    (cutRight sp k).length = sp.length - k := by
  cases sp with
  | span s =>
    simp [cutRight, AnySpan.length]
    omega
  | additionalSpan l r => simp [cutRight, AnySpan.length]

/-- Splitting never loses nor creates derived-text length. -/
theorem splitSpans_sum (spans : List AnySpan) (k : Nat) :
    sumLengths (splitSpans spans k).1 + sumLengths (splitSpans spans k).2 = sumLengths spans := by
  induction spans generalizing k with
  | nil => simp [splitSpans, sumLengths]
  | cons sp sps ih =>
    by_cases h0 : k = 0
    · simp [splitSpans, h0, sumLengths]
    · by_cases hlt : k < sp.length
      · simp only [splitSpans, if_neg h0, if_pos hlt]
        rw [sumLengths_cons, sumLengths_cons, sumLengths_nil, sumLengths_cons,
          length_cutLeft sp k hlt, length_cutRight]
        omega
      · simp only [splitSpans, if_neg h0, if_neg hlt]
        rw [sumLengths_cons, sumLengths_cons]
        have := ih (k - sp.length)
        omega

/-- When the cut point is inside the covered text, the left part of a
split covers exactly `k` characters. -/
theorem splitSpans_fst_sum (spans : List AnySpan) (k : Nat) (h : k ≤ sumLengths spans) :
    sumLengths (splitSpans spans k).1 = k := by
  induction spans generalizing k with
  | nil =>
    simp [sumLengths] at h
    simp [splitSpans, sumLengths, h]
  | cons sp sps ih =>
    by_cases h0 : k = 0
    · simp [splitSpans, h0, sumLengths]
    · by_cases hlt : k < sp.length
      · simp only [splitSpans, if_neg h0, if_pos hlt]
        rw [sumLengths_cons, sumLengths_nil, length_cutLeft sp k hlt]
        omega
      · simp only [splitSpans, if_neg h0, if_neg hlt]
        rw [sumLengths_cons]
        rw [sumLengths_cons] at h
        have := ih (k - sp.length) (by omega)
        omega

theorem splitSpans_snd_sum (spans : List AnySpan) (k : Nat) (h : k ≤ sumLengths spans) :
    sumLengths (splitSpans spans k).2 = sumLengths spans - k := by
  have h1 := splitSpans_sum spans k
  have h2 := splitSpans_fst_sum spans k h
  omega

/-- The length invariant of `replaceInSpansFrom` against
`spliceTextFrom`: under the usage contract, the derived span lengths sum
to the new text's length. -/
theorem sum_replaceInSpansFrom (ranges : List (Nat × Nat)) (reps : List (List Char))
    (text : List Char) (spans : List AnySpan) (off : Nat)
    (hcov : sumLengths spans = text.length)
    (hok : rangesOkFrom off ranges (off + text.length))
    (hlen : ranges.length = reps.length) :
    sumLengths (replaceInSpansFrom spans off ranges (reps.map List.length)) =
      (spliceTextFrom text off ranges reps).length := by
  induction ranges generalizing reps text spans off with
  | nil =>
    cases reps with
    | nil => simpa [replaceInSpansFrom, spliceTextFrom] using hcov
    | cons rep reps => simp at hlen
  | cons r rs ih =>
    obtain ⟨a, b⟩ := r
    cases reps with
    | nil => simp at hlen
    | cons rep reps =>
      obtain ⟨hlo, hab, hhi, hok'⟩ := hok
      simp only [replaceInSpansFrom, spliceTextFrom, List.map_cons]
      rw [sumLengths_append, sumLengths_append]
      have hsum1 : sumLengths (splitSpans spans (a - off)).1 = a - off :=
        splitSpans_fst_sum spans (a - off) (by omega)
      have hsum2 : sumLengths (splitSpans spans (a - off)).2 = text.length - (a - off) :=
        splitSpans_snd_sum spans (a - off) (by omega) |>.trans (by omega)
      have hsum3 : sumLengths (splitSpans (splitSpans spans (a - off)).2 (b - a)).2
          = text.length - (b - off) := by
        rw [splitSpans_snd_sum _ (b - a) (by omega)]
        omega
      have ihx := ih reps (text.drop (b - off)) (splitSpans (splitSpans spans (a - off)).2 (b - a)).2 b
        (by rw [hsum3, List.length_drop])
        (by
          have : b + (text.drop (b - off)).length = off + text.length := by
            rw [List.length_drop]; omega
          rw [this]; exact hok')
        (by simpa using hlen)
      have hnew : sumLengths (if rep.length = 0 then []
          else [AnySpan.additionalSpan rep.length
            (replacedSpansOf (splitSpans (splitSpans spans (a - off)).2 (b - a)).1)])
          = rep.length := by
        by_cases hz : rep.length = 0
        · simp [hz, sumLengths]
        · simp [hz, sumLengths, AnySpan.length]
      rw [hnew, ihx]
      simp [List.length_take]
      omega

/-- The slice of the spans under a valid range covers exactly the
range's length. -/
theorem sum_slice (spans : List AnySpan) (a b n : Nat) (hcov : sumLengths spans = n)
    (hab : a ≤ b) (hb : b ≤ n) :
    sumLengths (splitSpans (splitSpans spans a).2 (b - a)).1 = b - a := by
  apply splitSpans_fst_sum
  rw [splitSpans_snd_sum spans a (by omega)]
  omega

theorem sum_extract (text : List Char) (spans : List AnySpan) (ranges : List (Nat × Nat))
    (hcov : sumLengths spans = text.length)
    (hranges : ∀ p ∈ ranges, p.1 ≤ p.2 ∧ p.2 ≤ text.length) :
    sumLengths (_extract_in_spans spans ranges) = (extractText text ranges).length := by
  induction ranges with
  | nil => simp [_extract_in_spans, extractText, sumLengths]
  | cons r rs ih =>
    obtain ⟨hab, hb⟩ := hranges r (by simp)
    have ihx := ih (fun p hp => hranges p (by simp [hp]))
    simp only [_extract_in_spans, extractText, List.map_cons, List.flatten_cons] at ihx ⊢
    rw [sumLengths_append, List.length_append, ihx,
      sum_slice spans r.1 r.2 text.length hcov hab hb]
    simp [List.length_take, List.length_drop]
    omega

theorem sum_move (text : List Char) (spans : List AnySpan) (r : Nat × Nat) (dest : Nat)
    (hcov : sumLengths spans = text.length) (hse : r.1 ≤ r.2) (he : r.2 ≤ text.length) :
    sumLengths (_move_in_spans spans r dest) = (move text spans r dest).1.length := by
  obtain ⟨s, e⟩ := r
  simp only at hse he
  have hrem : sumLengths (_remove_in_spans spans [(s, e)]) =
      (text.take s ++ text.drop e).length := by
    have h := sum_replaceInSpansFrom [(s, e)] [[]] text spans 0 hcov
      (by exact ⟨Nat.zero_le s, hse, by omega, trivial⟩) (by simp)
    simp only [List.map_cons, List.map_nil, List.length_nil] at h
    rw [_remove_in_spans]
    simp only [List.map_cons, List.map_nil]
    rw [_replace_in_spans, h]
    simp [spliceTextFrom]
  have hsplit := splitSpans_sum (_remove_in_spans spans [(s, e)])
    (if e ≤ dest then dest - (e - s) else dest)
  have hblk : sumLengths (splitSpans (splitSpans spans s).2 (e - s)).1 = e - s :=
    sum_slice spans s e text.length hcov hse he
  have htd : (List.take (if e ≤ dest then dest - (e - s) else dest)
        (text.take s ++ text.drop e)).length
      + (List.drop (if e ≤ dest then dest - (e - s) else dest)
        (text.take s ++ text.drop e)).length
      = (text.take s ++ text.drop e).length := by
    rw [← List.length_append, List.take_append_drop]
  simp only [_move_in_spans, move]
  rw [sumLengths_append, sumLengths_append, hblk]
  simp only [List.length_append, List.length_take, List.length_drop] at htd hrem ⊢
  omega

/-- C5: for every span-algebra operation (`replace`, `remove`, `extract`,
`insert`, `move`) applied under the usage contract to a `(text, spans)`
pair in which the spans cover the text exactly, the sum of the lengths of
the output spans equals the length of the output text. -/
theorem C5_length_invariant :
    (∀ text spans ranges reps, sumLengths spans = List.length text →
        rangesOkFrom 0 ranges text.length → ranges.length = reps.length →
        sumLengths (replace text spans ranges reps).2 = (replace text spans ranges reps).1.length)
  ∧ (∀ text spans ranges, sumLengths spans = List.length text →
        rangesOkFrom 0 ranges text.length →
        sumLengths (remove text spans ranges).2 = (remove text spans ranges).1.length)
  ∧ (∀ text spans ranges, sumLengths spans = List.length text →
        (∀ p ∈ ranges, p.1 ≤ p.2 ∧ p.2 ≤ List.length text) →
        sumLengths (extract text spans ranges).2 = (extract text spans ranges).1.length)
  ∧ (∀ text spans positions reps, sumLengths spans = List.length text →
        rangesOkFrom 0 (positions.map fun p => (p, p)) text.length →
        positions.length = reps.length →
        sumLengths (insert text spans positions reps).2 = (insert text spans positions reps).1.length)
  ∧ (∀ text spans r dest, sumLengths spans = List.length text →
        r.1 ≤ r.2 → r.2 ≤ List.length text →
        sumLengths (move text spans r dest).2 = (move text spans r dest).1.length) := by
  refine ⟨?_, ?_, ?_, ?_, ?_⟩
  · intro text spans ranges reps hcov hok hlen
    simpa [replace, _replace_in_spans, spliceText] using
      sum_replaceInSpansFrom ranges reps text spans 0 hcov (by simpa using hok) hlen
  · intro text spans ranges hcov hok
    have hmap : (ranges.map fun _ => ([] : List Char)).map List.length
        = ranges.map fun _ => (0 : Nat) := by
      induction ranges with
      | nil => rfl
      | cons r rs ih => simp [ih]
    have h := sum_replaceInSpansFrom ranges (ranges.map fun _ => []) text spans 0 hcov
      (by simpa using hok) (by simp)
    rw [hmap] at h
    simpa [remove, _remove_in_spans, _replace_in_spans, spliceText] using h
  · intro text spans ranges hcov hranges
    exact sum_extract text spans ranges hcov hranges
  · intro text spans positions reps hcov hok hlen
    simpa [insert, replace, _replace_in_spans, spliceText] using
      sum_replaceInSpansFrom (positions.map fun p => (p, p)) reps text spans 0 hcov
        (by simpa using hok) (by simpa using hlen)
  · intro text spans r dest hcov hse he
    have h := sum_move text spans r dest hcov hse he
    simpa [move] using h

/-- Witness for C5: the length invariant at the concrete inputs of the
repository's own tests. -/
theorem C5_length_invariant_witness :
    sumLengths (replace "Hello, my name is John Doe.".data [.span ⟨0, 27⟩]
        [(18, 22), (23, 26)] ["Jane".data, "Dean".data]).2 = 28
  ∧ sumLengths (remove "Hello, my name is John Doe.".data [.span ⟨0, 27⟩]
        [(0, 7), (22, 27)]).2 = 15
  ∧ sumLengths (extract "Hello, my name is John Doe.".data [.span ⟨0, 27⟩]
        [(0, 7), (18, 22)]).2 = 11
  ∧ sumLengths (insert "Hello, my name is John Doe.".data [.span ⟨0, 27⟩]
        [5] [" everybody".data]).2 = 37
  ∧ sumLengths (move "Hello, my name is John Doe.".data [.span ⟨0, 27⟩]
        (17, 22) 5).2 = 27 := by
  refine ⟨?_, ?_, ?_, ?_, ?_⟩
  · have h := C5_length_invariant.1 "Hello, my name is John Doe.".data [.span ⟨0, 27⟩]
      [(18, 22), (23, 26)] ["Jane".data, "Dean".data] (by decide) (by decide) (by decide)
    exact h.trans (by decide)
  · have h := C5_length_invariant.2.1 "Hello, my name is John Doe.".data [.span ⟨0, 27⟩]
      [(0, 7), (22, 27)] (by decide) (by decide)
    exact h.trans (by decide)
  · have h := C5_length_invariant.2.2.1 "Hello, my name is John Doe.".data [.span ⟨0, 27⟩]
      [(0, 7), (18, 22)] (by decide) (by decide)
    exact h.trans (by decide)
  · have h := C5_length_invariant.2.2.2.1 "Hello, my name is John Doe.".data [.span ⟨0, 27⟩]
      [5] [" everybody".data] (by decide) (by decide) (by decide)
    exact h.trans (by decide)
  · have h := C5_length_invariant.2.2.2.2 "Hello, my name is John Doe.".data [.span ⟨0, 27⟩]
      (17, 22) 5 (by decide) (by decide) (by decide)
    exact h.trans (by decide)

/-! ## The remove-inside-composite behaviour (C6) -/

theorem splitSpans_zero (spans : List AnySpan) : splitSpans spans 0 = ([], spans) := by
  cases spans <;> simp [splitSpans]

/-- Splitting at or after the end of a positive-length prefix consumes
the prefix whole. -/
theorem splitSpans_append (pre rest : List AnySpan) (k : Nat)
    (hpos : ∀ sp ∈ pre, 0 < sp.length) (hk : sumLengths pre ≤ k) :
    splitSpans (pre ++ rest) k =
      (pre ++ (splitSpans rest (k - sumLengths pre)).1,
       (splitSpans rest (k - sumLengths pre)).2) := by
  induction pre generalizing k with
  | nil => simp [sumLengths]
  | cons sp pre ih =>
    have hsp : 0 < sp.length := hpos sp (by simp)
    rw [sumLengths_cons] at hk
    have h0 : k ≠ 0 := by omega
    have hlt : ¬ k < sp.length := by omega
    simp only [List.cons_append, splitSpans, if_neg h0, if_neg hlt, List.append_eq]
    rw [ih (k - sp.length) (fun s hs => hpos s (by simp [hs])) (by omega)]
    have harith : k - sp.length - sumLengths pre = k - sumLengths (sp :: pre) := by
      rw [sumLengths_cons]; omega
    rw [harith]

/-- C6: removing a range that falls strictly inside a composite span
splits it into two composites whose lengths sum to the original length
minus the removed length, both referencing the same, unsliced
`replaced_spans` list; and a composite whose length becomes zero (a
removal covering it exactly) is dropped entirely from the result. -/
theorem C6_remove_inside_composite :
    (∀ (pre post : List AnySpan) (L : Nat) (r : List Span) (a b : Nat),
        (∀ sp ∈ pre, 0 < sp.length) →
        sumLengths pre < a → a < b → b < sumLengths pre + L →
        _remove_in_spans (pre ++ [.additionalSpan L r] ++ post) [(a, b)] =
          pre ++ [.additionalSpan (a - sumLengths pre) r,
                  .additionalSpan (sumLengths pre + L - b) r] ++ post
        ∧ (a - sumLengths pre) + (sumLengths pre + L - b) = L - (b - a))
  ∧ (∀ (pre post : List AnySpan) (L : Nat) (r : List Span),
        (∀ sp ∈ pre, 0 < sp.length) → 0 < L →
        _remove_in_spans (pre ++ [.additionalSpan L r] ++ post)
          [(sumLengths pre, sumLengths pre + L)] = pre ++ post) := by
  constructor
  · intro pre post L r a b hpos hlo hab hhi
    have hlen : (AnySpan.additionalSpan L r).length = L := rfl
    refine ⟨?_, by omega⟩
    rw [_remove_in_spans]
    simp only [List.map_cons, List.map_nil]
    rw [_replace_in_spans]
    simp only [replaceInSpansFrom, Nat.sub_zero]
    rw [List.append_assoc pre, splitSpans_append pre _ a hpos (by omega)]
    have hk1 : a - sumLengths pre ≠ 0 := by omega
    have hk2 : a - sumLengths pre < (AnySpan.additionalSpan L r).length := by
      rw [hlen]; omega
    simp only [List.cons_append, List.nil_append, splitSpans, if_neg hk1, if_pos hk2]
    have hk3 : b - a ≠ 0 := by omega
    have hk4 : b - a < (cutRight (AnySpan.additionalSpan L r) (a - sumLengths pre)).length := by
      simp only [cutRight, AnySpan.length]
      omega
    simp only [splitSpans, if_neg hk3, if_pos hk4]
    simp only [cutLeft, cutRight, replaceInSpansFrom]
    have harith : L - (a - sumLengths pre) - (b - a) = sumLengths pre + L - b := by omega
    simp [harith]
  · intro pre post L r hpos hL
    have hlen : (AnySpan.additionalSpan L r).length = L := rfl
    rw [_remove_in_spans]
    simp only [List.map_cons, List.map_nil]
    rw [_replace_in_spans]
    simp only [replaceInSpansFrom, Nat.sub_zero]
    rw [List.append_assoc pre, splitSpans_append pre _ (sumLengths pre) hpos (by omega)]
    simp only [Nat.sub_self, splitSpans_zero]
    have hk1 : sumLengths pre + L - sumLengths pre = L := by omega
    have hk2 : L ≠ 0 := by omega
    have hk3 : ¬ L < (AnySpan.additionalSpan L r).length := by rw [hlen]; omega
    simp only [hk1, List.cons_append, List.nil_append, splitSpans, if_neg hk2, if_neg hk3]
    rw [hlen, Nat.sub_self, splitSpans_zero]
    simp [replaceInSpansFrom]

/-- Witness for C6 at the concrete composite of the repository's
`test_remove_in_spans`: removing `(4, 7)` inside `AdditionalSpan(10,
[Span(10, 30)])` yields the two composites `AdditionalSpan(4, ...)` and
`AdditionalSpan(3, ...)` over the same replaced list, and removing
`(0, 10)` drops the composite entirely. -/
theorem C6_remove_inside_composite_witness :
    _remove_in_spans [.additionalSpan 10 [⟨10, 30⟩]] [(4, 7)] =
      [.additionalSpan 4 [⟨10, 30⟩], .additionalSpan 3 [⟨10, 30⟩]]
  ∧ _remove_in_spans [.additionalSpan 10 [⟨10, 30⟩]] [(0, 10)] = [] := by
  constructor
  · have h := (C6_remove_inside_composite.1 [] [] 10 [⟨10, 30⟩] 4 7
      (by simp) (by decide) (by decide) (by decide)).1
    simpa using h
  · have h := C6_remove_inside_composite.2 [] [] 10 [⟨10, 30⟩] (by simp) (by decide)
    simpa using h

/-- C7: the concrete `replace` scenario of §8 and `test_replace`:
substituted regions become composite spans listing the original ranges
they consumed, untouched portions stay plain spans. -/
theorem C7_replace_example :
    replace "Hello, my name is John Doe.".data [.span ⟨0, 27⟩] [(18, 22), (23, 26)]
        ["Jane".data, "Dean".data] =
      ("Hello, my name is Jane Dean.".data,
       [.span ⟨0, 18⟩, .additionalSpan 4 [⟨18, 22⟩], .span ⟨22, 23⟩,
        .additionalSpan 4 [⟨23, 26⟩], .span ⟨26, 27⟩]) := by decide

/-! ## Coordinate view of span sequences (for C8)

`positions` maps a span sequence to the original-text coordinate of each
character of the derived text it covers, so that "coordinate-equal,
possibly re-segmented" span sequences are exactly the ones with equal
`positions`. -/

def isSimple : AnySpan → Bool
  | .span _ => true
  | .additionalSpan _ _ => false

/-- Original-text coordinates covered by a span, one entry per character
of derived text (`0` as placeholder for synthetic text). -/
def spanPositions : AnySpan → List Nat
  | .span s => List.range' s.start (s.stop - s.start)
  | .additionalSpan l _ => List.replicate l 0

def positions (spans : List AnySpan) : List Nat :=
  (spans.map spanPositions).flatten

theorem take_range' (n a k : Nat) : (List.range' a n).take k = List.range' a (min k n) := by
  induction n generalizing a k with
  | zero => simp
  | succ m ih =>
    cases k with
    | zero => simp
    | succ j =>
      rw [List.range'_succ, List.take_succ_cons, ih,
        show min (j + 1) (m + 1) = min j m + 1 by omega, List.range'_succ]

theorem drop_range' (n a k : Nat) : (List.range' a n).drop k = List.range' (a + k) (n - k) := by
  induction n generalizing a k with
  | zero => simp
  | succ m ih =>
    cases k with
    | zero => simp
    | succ j =>
      rw [List.range'_succ, List.drop_succ_cons, ih]
      congr 1 <;> omega

theorem length_spanPositions (sp : AnySpan) : (spanPositions sp).length = sp.length := by
  cases sp <;> simp [spanPositions, AnySpan.length]

theorem positions_nil : positions [] = [] := rfl

theorem positions_cons (sp : AnySpan) (sps : List AnySpan) :
    positions (sp :: sps) = spanPositions sp ++ positions sps := by
  simp [positions]

theorem positions_append (xs ys : List AnySpan) :
    positions (xs ++ ys) = positions xs ++ positions ys := by
  simp [positions]

theorem positions_length (spans : List AnySpan) :
    (positions spans).length = sumLengths spans := by
  induction spans with
  | nil => rfl
  | cons sp sps ih =>
    rw [positions_cons, List.length_append, length_spanPositions, ih, sumLengths_cons]

theorem spanPositions_cutLeft (sp : AnySpan) (k : Nat) (h : k < sp.length) :
    spanPositions (cutLeft sp k) = (spanPositions sp).take k := by
  cases sp with
  | span s =>
    simp only [cutLeft, spanPositions]
    rw [take_range']
    congr 1
    simp only [AnySpan.length] at h
    omega
  | additionalSpan l r =>
    simp only [cutLeft, spanPositions]
    rw [List.take_replicate]
    congr 1
    simp only [AnySpan.length] at h
    omega

theorem spanPositions_cutRight (sp : AnySpan) (k : Nat) (h : k < sp.length) :
    spanPositions (cutRight sp k) = (spanPositions sp).drop k := by
  cases sp with
  | span s =>
    simp only [cutRight, spanPositions]
    rw [drop_range']
    congr 1
    simp only [AnySpan.length] at h
    omega
  | additionalSpan l r =>
    simp only [cutRight, spanPositions]
    rw [List.drop_replicate]

/-- `splitSpans` is the take/drop of the coordinate view. -/
theorem positions_splitSpans (spans : List AnySpan) (k : Nat) :
    positions (splitSpans spans k).1 = (positions spans).take k
    ∧ positions (splitSpans spans k).2 = (positions spans).drop k := by
  induction spans generalizing k with
  | nil => simp [splitSpans, positions]
  | cons sp sps ih =>
    by_cases h0 : k = 0
    · simp [splitSpans, h0, positions]
    · by_cases hlt : k < sp.length
      · simp only [splitSpans, if_neg h0, if_pos hlt]
        constructor
        · rw [positions_cons, positions_nil, List.append_nil, positions_cons,
            spanPositions_cutLeft sp k hlt, List.take_append_eq_append_take,
            length_spanPositions, show k - sp.length = 0 by omega, List.take_zero,
            List.append_nil]
        · rw [positions_cons, positions_cons, spanPositions_cutRight sp k hlt,
            List.drop_append_eq_append_drop, length_spanPositions,
            show k - sp.length = 0 by omega, List.drop_zero]
      · simp only [splitSpans, if_neg h0, if_neg hlt]
        obtain ⟨ih1, ih2⟩ := ih (k - sp.length)
        constructor
        · have htake : List.take k (spanPositions sp) = spanPositions sp :=
            List.take_of_length_le (by rw [length_spanPositions]; omega)
          rw [positions_cons, positions_cons, ih1, List.take_append_eq_append_take,
            length_spanPositions, htake]
        · have hdrop : List.drop k (spanPositions sp) = [] :=
            List.drop_eq_nil_of_le (by rw [length_spanPositions]; omega)
          rw [positions_cons, ih2, List.drop_append_eq_append_drop,
            length_spanPositions, hdrop, List.nil_append]

/-- The action of `move` on any sequence: cut the block out and splice it
back at the (possibly shifted) destination. -/
def listMove (l : List α) (s e dest : Nat) : List α :=
  let blk := (l.drop s).take (e - s)
  let rem := l.take s ++ l.drop e
  let d := if e ≤ dest then dest - (e - s) else dest
  rem.take d ++ blk ++ rem.drop d

/-- Range and destination of the move that brings a moved block back to
its original place. -/
def inverseMoveArgs (s e d : Nat) : (Nat × Nat) × Nat :=
  if e ≤ d then ((d - (e - s), d), s) else ((d, d + (e - s)), s + (e - s))

theorem move_text_eq (text : List Char) (spans : List AnySpan) (r : Nat × Nat) (dest : Nat) :
    (move text spans r dest).1 = listMove text r.1 r.2 dest := rfl

theorem positions_remove_single (spans : List AnySpan) (s e : Nat) (hse : s ≤ e) :
    positions (_remove_in_spans spans [(s, e)]) =
      (positions spans).take s ++ (positions spans).drop e := by
  rw [_remove_in_spans]
  simp only [List.map_cons, List.map_nil]
  rw [_replace_in_spans]
  simp only [replaceInSpansFrom, Nat.sub_zero, eq_self_iff_true, if_true, List.nil_append,
    List.append_nil]
  rw [positions_append, (positions_splitSpans spans s).1,
    (positions_splitSpans (splitSpans spans s).2 (e - s)).2,
    (positions_splitSpans spans s).2, List.drop_drop]
  congr 2
  omega

theorem positions_slice (spans : List AnySpan) (s e : Nat) :
    positions (splitSpans (splitSpans spans s).2 (e - s)).1 =
      ((positions spans).drop s).take (e - s) := by
  rw [(positions_splitSpans (splitSpans spans s).2 (e - s)).1,
    (positions_splitSpans spans s).2]

/-- `_move_in_spans` is `listMove` on the coordinate view. -/
theorem positions_move (spans : List AnySpan) (r : Nat × Nat) (dest : Nat)
    (hr : r.1 ≤ r.2) :
    positions (_move_in_spans spans r dest) = listMove (positions spans) r.1 r.2 dest := by
  obtain ⟨s, e⟩ := r
  simp only at hr
  simp only [_move_in_spans, listMove]
  rw [positions_append, positions_append,
    (positions_splitSpans (_remove_in_spans spans [(s, e)])
      (if e ≤ dest then dest - (e - s) else dest)).1,
    (positions_splitSpans (_remove_in_spans spans [(s, e)])
      (if e ≤ dest then dest - (e - s) else dest)).2,
    positions_slice spans s e, positions_remove_single spans s e hr]

/-! ## `move` on all-simple spans stays all-simple -/

theorem isSimple_cutLeft (sp : AnySpan) (k : Nat) (h : isSimple sp = true) :
    isSimple (cutLeft sp k) = true := by
  cases sp <;> simp_all [cutLeft, isSimple]

theorem isSimple_cutRight (sp : AnySpan) (k : Nat) (h : isSimple sp = true) :
    isSimple (cutRight sp k) = true := by
  cases sp <;> simp_all [cutRight, isSimple]

theorem allSimple_splitSpans (spans : List AnySpan) (k : Nat)
    (h : spans.all isSimple = true) :
    (splitSpans spans k).1.all isSimple = true
    ∧ (splitSpans spans k).2.all isSimple = true := by
  induction spans generalizing k with
  | nil => simp [splitSpans]
  | cons sp sps ih =>
    rw [List.all_cons, Bool.and_eq_true] at h
    by_cases h0 : k = 0
    · simp only [splitSpans, if_pos h0]
      exact ⟨rfl, by rw [List.all_cons, Bool.and_eq_true]; exact h⟩
    · by_cases hlt : k < sp.length
      · simp only [splitSpans, if_neg h0, if_pos hlt]
        refine ⟨?_, ?_⟩
        · simp [isSimple_cutLeft sp k h.1]
        · rw [List.all_cons, Bool.and_eq_true]
          exact ⟨isSimple_cutRight sp k h.1, h.2⟩
      · simp only [splitSpans, if_neg h0, if_neg hlt]
        obtain ⟨ih1, ih2⟩ := ih (k - sp.length) h.2
        refine ⟨?_, ih2⟩
        rw [List.all_cons, Bool.and_eq_true]
        exact ⟨h.1, ih1⟩

theorem allSimple_remove_single (spans : List AnySpan) (s e : Nat)
    (h : spans.all isSimple = true) :
    (_remove_in_spans spans [(s, e)]).all isSimple = true := by
  rw [_remove_in_spans]
  simp only [List.map_cons, List.map_nil]
  rw [_replace_in_spans]
  simp only [replaceInSpansFrom, Nat.sub_zero, eq_self_iff_true, if_true, List.nil_append,
    List.append_nil]
  simp only [List.all_append, Bool.and_eq_true]
  exact ⟨(allSimple_splitSpans spans s h).1,
    (allSimple_splitSpans (splitSpans spans s).2 (e - s)
      (allSimple_splitSpans spans s h).2).2⟩

theorem allSimple_move (spans : List AnySpan) (r : Nat × Nat) (dest : Nat)
    (h : spans.all isSimple = true) :
    (_move_in_spans spans r dest).all isSimple = true := by
  obtain ⟨s, e⟩ := r
  simp only [_move_in_spans]
  have hrem := allSimple_remove_single spans s e h
  simp only [List.all_append, Bool.and_eq_true]
  exact ⟨⟨(allSimple_splitSpans (_remove_in_spans spans [(s, e)])
      (if e ≤ dest then dest - (e - s) else dest) hrem).1,
    (allSimple_splitSpans (splitSpans spans s).2 (e - s)
      (allSimple_splitSpans spans s h).2).1⟩,
    (allSimple_splitSpans (_remove_in_spans spans [(s, e)])
      (if e ≤ dest then dest - (e - s) else dest) hrem).2⟩

/-! ## Round trip of move (C8) -/

/-- `listMove` on a sequence decomposed at the block being moved. -/
theorem listMove_append3 (A B C : List α) (s₂ e₂ dest : Nat)
    (hA : A.length = s₂) (hB : B.length = e₂ - s₂) (hAe : s₂ ≤ e₂) :
    listMove (A ++ B ++ C) s₂ e₂ dest =
      (A ++ C).take (if e₂ ≤ dest then dest - (e₂ - s₂) else dest) ++ B
        ++ (A ++ C).drop (if e₂ ≤ dest then dest - (e₂ - s₂) else dest) := by
  subst hA
  simp only [listMove]
  have hblk : ((A ++ B ++ C).drop A.length).take (e₂ - A.length) = B := by
    rw [List.append_assoc, List.drop_left, List.take_left' hB]
  have htk : (A ++ B ++ C).take A.length = A := by
    rw [List.append_assoc, List.take_left]
  have hdp : (A ++ B ++ C).drop e₂ = C := by
    rw [show e₂ = A.length + B.length by omega, List.append_assoc, ← List.drop_drop,
      List.drop_left, List.drop_left]
  rw [hblk, htk, hdp]

/-- Moving a block and then moving it back restores the sequence. -/
theorem listMove_roundtrip (l : List α) (s e d : Nat)
    (hse : s ≤ e) (he : e ≤ l.length) (hd : d ≤ l.length) (hside : d ≤ s ∨ e ≤ d) :
    listMove (listMove l s e d) (inverseMoveArgs s e d).1.1 (inverseMoveArgs s e d).1.2
      (inverseMoveArgs s e d).2 = l := by
  have hsn : s ≤ l.length := le_trans hse he
  have htake_len : (l.take s).length = s := by rw [List.length_take]; omega
  have hblk_len : ((l.drop s).take (e - s)).length = e - s := by
    rw [List.length_take, List.length_drop]; omega
  have hrem_len : (l.take s ++ l.drop e).length = l.length - (e - s) := by
    rw [List.length_append, htake_len, List.length_drop]; omega
  have hfinal : l.take s ++ (l.drop s).take (e - s) ++ l.drop e = l := by
    rw [List.append_assoc]
    have h2 : l.drop e = (l.drop s).drop (e - s) := by
      rw [List.drop_drop]
      congr 1
      omega
    rw [h2, List.take_append_drop, List.take_append_drop]
  by_cases hed : e ≤ d
  · have hL1 : listMove l s e d =
        (l.take s ++ l.drop e).take (d - (e - s)) ++ (l.drop s).take (e - s)
          ++ (l.take s ++ l.drop e).drop (d - (e - s)) := by
      simp only [listMove, if_pos hed]
    have hA : ((l.take s ++ l.drop e).take (d - (e - s))).length = d - (e - s) := by
      rw [List.length_take, hrem_len]; omega
    have hB : ((l.drop s).take (e - s)).length = d - (d - (e - s)) := by
      rw [hblk_len]; omega
    simp only [inverseMoveArgs, if_pos hed]
    rw [hL1, listMove_append3 ((l.take s ++ l.drop e).take (d - (e - s)))
      ((l.drop s).take (e - s)) ((l.take s ++ l.drop e).drop (d - (e - s)))
      (d - (e - s)) d s hA hB (by omega)]
    rw [List.take_append_drop]
    have hd2 : (if d ≤ s then s - (d - (d - (e - s))) else s) = s := by
      by_cases hc : d ≤ s
      · rw [if_pos hc]; omega
      · rw [if_neg hc]
    rw [hd2, List.take_left' htake_len, List.drop_left' htake_len, hfinal]
  · rcases hside with hds | hds
    · have hL1 : listMove l s e d =
          (l.take s ++ l.drop e).take d ++ (l.drop s).take (e - s)
            ++ (l.take s ++ l.drop e).drop d := by
        simp only [listMove, if_neg hed]
      have hA : ((l.take s ++ l.drop e).take d).length = d := by
        rw [List.length_take, hrem_len]; omega
      have hB : ((l.drop s).take (e - s)).length = d + (e - s) - d := by
        rw [hblk_len]; omega
      simp only [inverseMoveArgs, if_neg hed]
      rw [hL1, listMove_append3 ((l.take s ++ l.drop e).take d)
        ((l.drop s).take (e - s)) ((l.take s ++ l.drop e).drop d)
        d (d + (e - s)) (s + (e - s)) hA hB (by omega)]
      rw [List.take_append_drop]
      have hd2 : (if d + (e - s) ≤ s + (e - s) then s + (e - s) - (d + (e - s) - d)
          else s + (e - s)) = s := by
        rw [if_pos (by omega)]; omega
      rw [hd2, List.take_left' htake_len, List.drop_left' htake_len, hfinal]
    · exact absurd hds hed

/-- C8: on a `(text, spans)` pair containing only simple spans, `move`
of a valid range to a destination outside the range never wraps the
moved block in composite spans, and the inverse move (bringing the block
back to its original place) restores the original text exactly and a
span sequence that is coordinate-equal to the original one (possibly
re-segmented: same original positions in the same order). -/
theorem C8_move_roundtrip (text : List Char) (spans : List AnySpan) (s e d : Nat)
    (hsimple : spans.all isSimple = true)
    (hcov : sumLengths spans = text.length)
    (hse : s ≤ e) (he : e ≤ text.length) (hd : d ≤ text.length)
    (hside : d ≤ s ∨ e ≤ d) :
    (move text spans (s, e) d).2.all isSimple = true
    ∧ (move (move text spans (s, e) d).1 (move text spans (s, e) d).2
        (inverseMoveArgs s e d).1 (inverseMoveArgs s e d).2).1 = text
    ∧ positions (move (move text spans (s, e) d).1 (move text spans (s, e) d).2
        (inverseMoveArgs s e d).1 (inverseMoveArgs s e d).2).2 = positions spans
    ∧ (move (move text spans (s, e) d).1 (move text spans (s, e) d).2
        (inverseMoveArgs s e d).1 (inverseMoveArgs s e d).2).2.all isSimple = true := by
  have hsimple1 : (_move_in_spans spans (s, e) d).all isSimple = true :=
    allSimple_move spans (s, e) d hsimple
  have hinv_le : (inverseMoveArgs s e d).1.1 ≤ (inverseMoveArgs s e d).1.2 := by
    rw [inverseMoveArgs]
    by_cases hc : e ≤ d
    · rw [if_pos hc]
      simp
    · rw [if_neg hc]
      simp
  refine ⟨hsimple1, ?_, ?_, ?_⟩
  · rw [move_text_eq, move_text_eq]
    exact listMove_roundtrip text s e d hse he hd hside
  · show positions (_move_in_spans (_move_in_spans spans (s, e) d)
      (inverseMoveArgs s e d).1 (inverseMoveArgs s e d).2) = positions spans
    rw [positions_move (_move_in_spans spans (s, e) d) (inverseMoveArgs s e d).1
        (inverseMoveArgs s e d).2 hinv_le,
      positions_move spans (s, e) d hse]
    exact listMove_roundtrip (positions spans) s e d hse
      (by rw [positions_length, hcov]; exact he)
      (by rw [positions_length, hcov]; exact hd) hside
  · exact allSimple_move (_move_in_spans spans (s, e) d)
      (inverseMoveArgs s e d).1 (inverseMoveArgs s e d).2 hsimple1

/-- Witness for C8: the `test_move_before` scenario, moved back. -/
theorem C8_move_roundtrip_witness :
    (move "Hello, my name is John Doe.".data [.span ⟨0, 27⟩] (17, 22) 5).2.all isSimple = true
    ∧ (move (move "Hello, my name is John Doe.".data [.span ⟨0, 27⟩] (17, 22) 5).1
        (move "Hello, my name is John Doe.".data [.span ⟨0, 27⟩] (17, 22) 5).2
        (inverseMoveArgs 17 22 5).1 (inverseMoveArgs 17 22 5).2).1
      = "Hello, my name is John Doe.".data
    ∧ positions (move (move "Hello, my name is John Doe.".data [.span ⟨0, 27⟩] (17, 22) 5).1
        (move "Hello, my name is John Doe.".data [.span ⟨0, 27⟩] (17, 22) 5).2
        (inverseMoveArgs 17 22 5).1 (inverseMoveArgs 17 22 5).2).2
      = positions [.span ⟨0, 27⟩] :=
  have h := C8_move_roundtrip "Hello, my name is John Doe.".data [.span ⟨0, 27⟩] 17 22 5
    (by decide) (by decide) (by decide) (by decide) (by decide) (Or.inl (by decide))
  ⟨h.1, h.2.1, h.2.2.1⟩

/-! ## Provenance graph lemmas -/

theorem getNode_eq_none_of_hasNode_false (g : ProvGraph) (id : String)
    (h : g.hasNode id = false) : g.getNode id = none := by
  rw [ProvGraph.getNode, List.find?_eq_none]
  rw [ProvGraph.hasNode, List.any_eq_false] at h
  exact h

theorem hasNode_true_of_getNode_some (g : ProvGraph) (id : String) (node : ProvNode)
    (h : g.getNode id = some node) : g.hasNode id = true := by
  rw [ProvGraph.getNode] at h
  rw [ProvGraph.hasNode, List.any_eq_true]
  have hp := List.find?_some h
  exact ⟨node, List.mem_of_find?_eq_some h, hp⟩

/-- `addDerivedTo` never changes which `data_item_id`s are present. -/
theorem any_id_addDerivedTo (ns : List ProvNode) (src target uid : String) :
    (addDerivedTo ns src target).any (fun n => n.data_item_id = uid)
      = ns.any (fun n => n.data_item_id = uid) := by
  rw [addDerivedTo, List.any_map]
  congr 1
  funext n
  by_cases h : n.data_item_id = src <;> simp [h]

/-- The per-source step of `ProvGraph.addNode` preserves every id
already present. -/
theorem foldl_addNode_preserves_any (newId : String) (srcIds : List String)
    (ns : List ProvNode) (uid : String)
    (h : ns.any (fun n => n.data_item_id = uid) = true) :
    (srcIds.foldl (addNodeStep newId) ns).any
      (fun n => n.data_item_id = uid) = true := by
  induction srcIds generalizing ns with
  | nil => exact h
  | cons src rest ih =>
    rw [List.foldl_cons]
    apply ih
    rw [addNodeStep]
    by_cases hc : ns.any (fun n => n.data_item_id = src) = true
    · rw [if_pos hc, any_id_addDerivedTo]
      exact h
    · rw [if_neg hc, List.any_append, h]
      rfl

theorem hasNode_addNode (g : ProvGraph) (id : String) (opid : Option String)
    (srcIds : List String) : (g.addNode id opid srcIds).hasNode id = true := by
  rw [ProvGraph.addNode, ProvGraph.hasNode]
  apply foldl_addNode_preserves_any
  simp

theorem hasNode_addNode_mono (g : ProvGraph) (id uid : String) (opid : Option String)
    (srcIds : List String) (h : g.hasNode uid = true) :
    (g.addNode id opid srcIds).hasNode uid = true := by
  rw [ProvGraph.addNode, ProvGraph.hasNode]
  apply foldl_addNode_preserves_any
  rw [ProvGraph.hasNode] at h
  rw [List.any_append, h]
  rfl

/-- C2: `add_prov` for an id already tracked always fails, immediately
and with the tracer state unchanged; in particular a second `add_prov`
after a successful first one for the same id fails and leaves the state
of the first call intact. -/
theorem C2_add_prov_duplicate :
    (∀ (t : ProvTracer) (d : DataItem) (op : OperationDescription) (srcs : List DataItem),
      t.graph.hasNode d.uid = true →
      add_prov t d op srcs =
        (t, some ("Provenance of data item with identifier " ++ d.uid
          ++ " was already added")))
  ∧ (∀ (t t' : ProvTracer) (d : DataItem) (op op2 : OperationDescription)
        (srcs srcs2 : List DataItem),
      add_prov t d op srcs = (t', none) →
      add_prov t' d op2 srcs2 =
        (t', some ("Provenance of data item with identifier " ++ d.uid
          ++ " was already added"))) := by
  constructor
  · intro t d op srcs h
    rw [add_prov, if_pos h]
  · intro t t' d op op2 srcs srcs2 h
    have hnode : t'.graph.hasNode d.uid = true := by
      rw [add_prov] at h
      by_cases hc : t.graph.hasNode d.uid = true
      · rw [if_pos hc] at h
        cases h
      · rw [if_neg hc] at h
        have hfst := congrArg Prod.fst h
        simp only at hfst
        rw [← hfst]
        exact hasNode_addNode t.graph d.uid (some op.uid)
          (srcs.map (fun s => s.uid))
    rw [add_prov, if_pos hnode]

/-- Witness for C2: re-adding provenance for `"out"` after a successful
first call fails and leaves the first call's state unchanged. -/
theorem C2_add_prov_duplicate_witness :
    add_prov (add_prov createProvTracer ⟨"out"⟩ ⟨"opD", "D"⟩ []).1 ⟨"out"⟩ ⟨"opE", "E"⟩ [] =
      ((add_prov createProvTracer ⟨"out"⟩ ⟨"opD", "D"⟩ []).1,
       some ("Provenance of data item with identifier " ++ "out" ++ " was already added")) :=
  C2_add_prov_duplicate.2 createProvTracer (add_prov createProvTracer ⟨"out"⟩ ⟨"opD", "D"⟩ []).1
    ⟨"out"⟩ ⟨"opD", "D"⟩ ⟨"opE", "E"⟩ [] [] (by rfl)

/-! ## Shape of the node registered by `addNode` -/

theorem find?_id_addDerivedTo (ns : List ProvNode) (src target uid : String)
    (opid : Option String) (sids der : List String)
    (h : ns.find? (fun n => n.data_item_id = uid) = some ⟨uid, opid, sids, der⟩) :
    ∃ der2, (addDerivedTo ns src target).find? (fun n => n.data_item_id = uid)
      = some ⟨uid, opid, sids, der2⟩ := by
  induction ns with
  | nil => simp [List.find?] at h
  | cons m ms ih =>
    simp only [addDerivedTo, List.map] at *
    by_cases hm : m.data_item_id = uid
    · rw [List.find?_cons_of_pos _ (by simp [hm])] at h
      injection h with h2
      subst h2
      by_cases hc : uid = src
      · exact ⟨der ++ [target], by simp [List.find?_cons_of_pos, hc]⟩
      · exact ⟨der, by simp [List.find?_cons_of_pos, hc]⟩
    · rw [List.find?_cons_of_neg _ (by simp [hm])] at h
      obtain ⟨der2, ih2⟩ := ih h
      refine ⟨der2, ?_⟩
      rw [List.find?_cons_of_neg _ ?_]
      · exact ih2
      · by_cases hc2 : m.data_item_id = src
        · simp only [if_pos hc2]
          simp [← hc2, hm]
        · simp [if_neg hc2, hm]

theorem find?_id_append (ns ns2 : List ProvNode) (uid : String) (node : ProvNode)
    (h : ns.find? (fun n => n.data_item_id = uid) = some node) :
    (ns ++ ns2).find? (fun n => n.data_item_id = uid) = some node := by
  rw [List.find?_append, h]
  rfl

theorem find?_foldl_addNode (newId : String) (srcIds : List String) :
    ∀ (ns : List ProvNode) (uid : String) (opid : Option String) (sids der : List String),
      ns.find? (fun n => n.data_item_id = uid) = some ⟨uid, opid, sids, der⟩ →
      ∃ der2, (srcIds.foldl (addNodeStep newId) ns).find?
        (fun n => n.data_item_id = uid) = some ⟨uid, opid, sids, der2⟩ := by
  induction srcIds with
  | nil => exact fun ns uid opid sids der h => ⟨der, h⟩
  | cons src rest ih =>
    intro ns uid opid sids der h
    rw [List.foldl_cons, addNodeStep]
    by_cases hc : ns.any (fun n => n.data_item_id = src) = true
    · rw [if_pos hc]
      obtain ⟨der2, h2⟩ := find?_id_addDerivedTo ns src newId uid opid sids der h
      exact ih _ uid opid sids der2 h2
    · rw [if_neg hc]
      exact ih _ uid opid sids der (find?_id_append ns _ uid _ h)

/-- The node registered by `addNode` for a fresh id carries exactly the
given operation id and source ids (its `derived_ids` may have been
touched if the node lists itself as a source). -/
theorem getNode_addNode (g : ProvGraph) (uid : String) (opid : Option String)
    (srcIds : List String) (h : g.hasNode uid = false) :
    ∃ der, (g.addNode uid opid srcIds).getNode uid = some ⟨uid, opid, srcIds, der⟩ := by
  rw [ProvGraph.addNode, ProvGraph.getNode]
  have hnone : List.find? (fun n => decide (n.data_item_id = uid)) g.nodes = none :=
    getNode_eq_none_of_hasNode_false g uid h
  exact find?_foldl_addNode uid srcIds (g.nodes ++ [⟨uid, opid, srcIds, []⟩]) uid opid srcIds []
    (by rw [List.find?_append, hnone]; simp [List.find?])

/-! ## Soundness of the backward traversal (C1) -/

/-- Every id the traversal collects (beyond those already accumulated)
has a node with no `operation_id` in the sub-graph: intermediate items,
whose nodes carry an operation id, are never collected. -/
theorem bfsSourceIds_sound (g : ProvGraph) :
    ∀ (fuel : Nat) (srcs seen queue res : List String),
      bfsSourceIds g fuel srcs seen queue = some res →
      ∀ uid ∈ res, uid ∈ srcs ∨ ∃ n, g.getNode uid = some n ∧ n.operation_id = none := by
  intro fuel
  induction fuel with
  | zero =>
    intro srcs seen queue res h
    cases h
  | succ fuel ih =>
    intro srcs seen queue res h
    cases queue with
    | nil =>
      simp only [bfsSourceIds] at h
      cases h
      intro uid hu
      exact Or.inl hu
    | cons nid queue =>
      simp only [bfsSourceIds] at h
      cases hg : g.getNode nid with
      | none =>
        simp only [hg] at h
        cases h
      | some node =>
        simp only [hg] at h
        by_cases hop : node.operation_id = none
        · rw [if_pos hop] at h
          intro uid hu
          rcases ih _ _ _ _ h uid hu with hin | hex
          · rcases List.mem_append.1 hin with h1 | h2
            · exact Or.inl h1
            · right
              simp only [List.mem_singleton] at h2
              subst h2
              exact ⟨node, hg, hop⟩
          · exact Or.inr hex
        · rw [if_neg hop] at h
          intro uid hu
          exact ih _ _ _ _ h uid hu

/-! ## Concrete pipeline scenarios -/

def extItem : DataItem := ⟨"ext"⟩
def midItem : DataItem := ⟨"mid"⟩
def outItem : DataItem := ⟨"out"⟩
def opA : OperationDescription := ⟨"opA", "A"⟩
def opB : OperationDescription := ⟨"opB", "B"⟩
def opC : OperationDescription := ⟨"opC", "C"⟩

/-- Sub-tracer of a composite operation whose internal pipeline derives
`out` from the external input `ext` through the intermediate `mid`. -/
def chainSub : ProvTracer :=
  (add_prov (add_prov createProvTracer midItem opA [extItem]).1 outItem opB [midItem]).1

/-- Parent tracer sharing the sub-tracer's store, before the collapse. -/
def chainParent : ProvTracer := { store := chainSub.store, graph := createProvGraph }

/-- The collapse of the chain sub-tracer into the parent under `opC`. -/
def chainCollapsed : ProvTracer × Option String :=
  add_prov_from_sub_tracer chainParent [outItem] opC chainSub

/-- C1: the node `add_prov_from_sub_tracer` adds for an output item has
as sources only ids whose sub-graph node has no `operation_id` (true
external inputs), never intermediate items; on the concrete pipeline
`ext -(opA)-> mid -(opB)-> out`, the collapse adds exactly one node for
`out` whose sources are exactly `["ext"]`. -/
theorem C1_sub_tracer_collapse :
    (∀ (g sub_graph : ProvGraph) (uid opId : String) (g2 : ProvGraph) (node2 : ProvNode),
      _add_prov_from_sub_tracer_for_data_item g uid opId sub_graph = some g2 →
      g2.getNode uid = some node2 →
      ∀ sid ∈ node2.source_ids,
        ∃ n, sub_graph.getNode sid = some n ∧ n.operation_id = none)
  ∧ (chainCollapsed.2 = none
     ∧ chainCollapsed.1.graph.getNode "out" = some ⟨"out", some "opC", ["ext"], []⟩
     ∧ (chainCollapsed.1.graph.nodes.filter (fun n => n.data_item_id = "out")).length = 1
     ∧ (chainSub.graph.getNode "ext").map (fun n => n.operation_id) = some none
     ∧ (chainSub.graph.getNode "mid").map (fun n => n.operation_id) = some (some "opA")
     ∧ (chainSub.graph.getNode "out").map (fun n => n.operation_id) = some (some "opB")) := by
  constructor
  · intro g sub_graph uid opId g2 node2 h hget sid hsid
    rw [_add_prov_from_sub_tracer_for_data_item] at h
    by_cases h1 : g.hasNode uid = true
    · rw [if_pos h1] at h
      cases h
    · rw [if_neg h1] at h
      by_cases h2 : sub_graph.hasNode uid = true
      · rw [if_pos h2] at h
        cases hbfs : bfsSourceIds sub_graph (bfsFuel sub_graph) [] [] [uid] with
        | none =>
          rw [hbfs] at h
          cases h
        | some srcs =>
          rw [hbfs] at h
          simp only [Option.map] at h
          cases h
          have h1f : g.hasNode uid = false := by
            revert h1
            cases g.hasNode uid <;> simp
          obtain ⟨der, hder⟩ := getNode_addNode g uid (some opId) srcs h1f
          rw [hder] at hget
          cases hget
          have hs := bfsSourceIds_sound sub_graph (bfsFuel sub_graph) [] [] [uid] srcs hbfs
            sid hsid
          rcases hs with hn | hx
          · cases hn
          · exact hx
      · rw [if_neg h2] at h
        cases h
  · refine ⟨by decide, by decide, by decide, by decide, by decide, by decide⟩

/-- Witness for C1: the collapse of the concrete chain applied through
the general statement — the single source of the collapsed node is an
external input of the sub-pipeline. -/
theorem C1_sub_tracer_collapse_witness :
    ∃ n, chainSub.graph.getNode "ext" = some n ∧ n.operation_id = none :=
  C1_sub_tracer_collapse.1 chainParent.graph chainSub.graph "out" "opC"
    (chainParent.graph.addNode "out" (some "opC") ["ext"])
    ⟨"out", some "opC", ["ext"], []⟩ (by rfl) (by decide) "ext" (by decide)

/-! ## Already-known outputs of a composite operation (C3) -/

theorem nodes_addSubGraph (g : ProvGraph) (opId : String) (sub : ProvGraph) :
    (g.addSubGraph opId sub).nodes = g.nodes := rfl

/-- C3: an output item whose id already has a node in the parent graph is
accepted silently — no new node, no error — exactly when the recorded
operation matches `op_desc`; a differing recorded operation raises the
fatal consistency error. -/
theorem C3_known_output_consistency (t : ProvTracer) (d : DataItem)
    (op : OperationDescription) (sub : ProvTracer) (node : ProvNode)
    (hsub : t.graph.hasSubGraph op.uid = false)
    (hnode : t.graph.getNode d.uid = some node) :
    (add_prov_from_sub_tracer t [d] op sub).1.graph.nodes = t.graph.nodes
    ∧ ((add_prov_from_sub_tracer t [d] op sub).2 = none ↔ node.operation_id = some op.uid)
    ∧ (node.operation_id ≠ some op.uid →
        (add_prov_from_sub_tracer t [d] op sub).2 =
          some ("Trying to add provenance for sub graph for data item with uid "
            ++ d.uid ++ " that already has a node, but with different operation_id")) := by
  rw [add_prov_from_sub_tracer, if_neg (by simp [hsub])]
  have hg0 : (t.graph.addSubGraph op.uid sub.graph).getNode d.uid = some node := hnode
  by_cases hop : node.operation_id = some op.uid
  · simp only [addProvFromSubTracerLoop, hg0, if_pos hop]
    refine ⟨by trivial, ?_, ?_⟩
    · simp [hop]
    · intro hne
      exact absurd hop hne
  · simp only [addProvFromSubTracerLoop, hg0, if_neg hop]
    refine ⟨by trivial, ?_, fun _ => by trivial⟩
    simp [hop]

/-- Witness for C3: a parent that already owns `"out"` under `opD`
accepts `"out"` from a composite claiming `opD`, and keeps its node list
unchanged while raising when the composite claims `opE`. -/
theorem C3_known_output_consistency_witness :
    ((add_prov_from_sub_tracer (add_prov createProvTracer ⟨"out"⟩ ⟨"opD", "D"⟩ []).1
        [⟨"out"⟩] ⟨"opD", "D"⟩ createProvTracer).2 = none)
    ∧ ((add_prov_from_sub_tracer (add_prov createProvTracer ⟨"out"⟩ ⟨"opD", "D"⟩ []).1
        [⟨"out"⟩] ⟨"opE", "E"⟩ createProvTracer).1.graph.nodes
      = (add_prov createProvTracer ⟨"out"⟩ ⟨"opD", "D"⟩ []).1.graph.nodes) := by
  constructor
  · exact (C3_known_output_consistency (add_prov createProvTracer ⟨"out"⟩ ⟨"opD", "D"⟩ []).1
      ⟨"out"⟩ ⟨"opD", "D"⟩ createProvTracer ⟨"out", some "opD", [], []⟩
      (by decide) (by decide)).2.1.mpr (by decide)
  · exact (C3_known_output_consistency (add_prov createProvTracer ⟨"out"⟩ ⟨"opD", "D"⟩ []).1
      ⟨"out"⟩ ⟨"opE", "E"⟩ createProvTracer ⟨"out", some "opD", [], []⟩
      (by decide) (by decide)).1

/-! ## Duplicated sources in the collapsed node (C9) -/

def xItem : DataItem := ⟨"x"⟩
def bItem : DataItem := ⟨"b"⟩
def b1Item : DataItem := ⟨"b1"⟩
def b2Item : DataItem := ⟨"b2"⟩

/-- Sub-tracer where `out` derives from `x` directly and from `b`, itself
derived from `x`: two distinct backward paths from `out` to `x`. -/
def asymSub : ProvTracer :=
  (add_prov (add_prov createProvTracer bItem ⟨"opb", "b"⟩ [xItem]).1
    outItem ⟨"opo", "o"⟩ [xItem, bItem]).1

def asymCollapsed : ProvTracer × Option String :=
  add_prov_from_sub_tracer { store := asymSub.store, graph := createProvGraph }
    [outItem] ⟨"opc", "c"⟩ asymSub

/-- Symmetric diamond: `out` from `b1` and `b2`, both from `x`. -/
def diamondSub : ProvTracer :=
  (add_prov (add_prov (add_prov createProvTracer b1Item ⟨"op1", "1"⟩ [xItem]).1
    b2Item ⟨"op2", "2"⟩ [xItem]).1 outItem ⟨"op3", "3"⟩ [b1Item, b2Item]).1

def diamondCollapsed : ProvTracer × Option String :=
  add_prov_from_sub_tracer { store := diamondSub.store, graph := createProvGraph }
    [outItem] ⟨"opc", "c"⟩ diamondSub

/-- C9 counterexample: in `asymSub` the output reaches the external input
`"x"` through two distinct backward paths (directly, and through `"b"`),
yet the collapsed node lists `"x"` exactly once — not more than once as
the claim states: when `"b"` is dequeued, `"x"` is already in `seen`, so
it is never enqueued a second time. -/
theorem C9_counterexample :
    ((asymSub.graph.getNode "out").map (fun n => n.source_ids) = some ["x", "b"]
     ∧ (asymSub.graph.getNode "b").map (fun n => n.source_ids) = some ["x"]
     ∧ (asymSub.graph.getNode "x").map (fun n => n.operation_id) = some none)
    ∧ asymCollapsed.2 = none
    ∧ (asymCollapsed.1.graph.getNode "out").map (fun n => n.source_ids.count "x")
      = some 1 := by
  refine ⟨⟨by decide, by decide, by decide⟩, by decide, by decide⟩

/-- C9 amended: the collapsed node lists an external input more than once
exactly when the traversal enqueues it from two different parents before
its first dequeue — as in the symmetric diamond, where `"x"` is enqueued
by both `"b1"` and `"b2"` and therefore collected twice. -/
theorem C9_amended_duplicate_sources :
    ((diamondSub.graph.getNode "out").map (fun n => n.source_ids) = some ["b1", "b2"]
     ∧ (diamondSub.graph.getNode "b1").map (fun n => n.source_ids) = some ["x"]
     ∧ (diamondSub.graph.getNode "b2").map (fun n => n.source_ids) = some ["x"]
     ∧ (diamondSub.graph.getNode "x").map (fun n => n.operation_id) = some none)
    ∧ diamondCollapsed.2 = none
    ∧ (diamondCollapsed.1.graph.getNode "out").map (fun n => n.source_ids)
      = some ["x", "x"] := by
  refine ⟨⟨by decide, by decide, by decide, by decide⟩, by decide, by decide⟩

/-! ## Non-atomicity of the collapse on error (C10) -/

theorem subGraphs_addNode (g : ProvGraph) (id : String) (opid : Option String)
    (srcs : List String) : (g.addNode id opid srcs).subGraphs = g.subGraphs := rfl

theorem subGraphs_forDataItem (g : ProvGraph) (uid opId : String) (sg g2 : ProvGraph)
    (h : _add_prov_from_sub_tracer_for_data_item g uid opId sg = some g2) :
    g2.subGraphs = g.subGraphs := by
  rw [_add_prov_from_sub_tracer_for_data_item] at h
  by_cases h1 : g.hasNode uid = true
  · rw [if_pos h1] at h
    cases h
  · rw [if_neg h1] at h
    by_cases h2 : sg.hasNode uid = true
    · rw [if_pos h2] at h
      cases hbfs : bfsSourceIds sg (bfsFuel sg) [] [] [uid] with
      | none =>
        rw [hbfs] at h
        cases h
      | some srcs =>
        rw [hbfs] at h
        simp only [Option.map] at h
        cases h
        rfl
    · rw [if_neg h2] at h
      cases h

theorem hasNode_forDataItem (g : ProvGraph) (uid opId : String) (sg g2 : ProvGraph)
    (u : String) (h : _add_prov_from_sub_tracer_for_data_item g uid opId sg = some g2)
    (hu : g.hasNode u = true ∨ u = uid) : g2.hasNode u = true := by
  rw [_add_prov_from_sub_tracer_for_data_item] at h
  by_cases h1 : g.hasNode uid = true
  · rw [if_pos h1] at h
    cases h
  · rw [if_neg h1] at h
    by_cases h2 : sg.hasNode uid = true
    · rw [if_pos h2] at h
      cases hbfs : bfsSourceIds sg (bfsFuel sg) [] [] [uid] with
      | none =>
        rw [hbfs] at h
        cases h
      | some srcs =>
        rw [hbfs] at h
        simp only [Option.map] at h
        cases h
        rcases hu with hu | hu
        · exact hasNode_addNode_mono g uid u (some opId) srcs hu
        · subst hu
          exact hasNode_addNode g u (some opId) srcs
    · rw [if_neg h2] at h
      cases h

theorem loop_subGraphs (sg : ProvGraph) (opid : String) (ds : List DataItem) :
    ∀ g : ProvGraph, (addProvFromSubTracerLoop sg opid g ds).1.subGraphs = g.subGraphs := by
  induction ds with
  | nil => intro g; rfl
  | cons d rest ih =>
    intro g
    cases hg : g.getNode d.uid with
    | some node =>
      by_cases hop : node.operation_id = some opid
      · simp only [addProvFromSubTracerLoop, hg, if_pos hop]
        exact ih g
      · simp only [addProvFromSubTracerLoop, hg, if_neg hop]
    | none =>
      cases hfd : _add_prov_from_sub_tracer_for_data_item g d.uid opid sg with
      | some g2 =>
        simp only [addProvFromSubTracerLoop, hg, hfd]
        rw [ih g2, subGraphs_forDataItem g d.uid opid sg g2 hfd]
      | none =>
        simp only [addProvFromSubTracerLoop, hg, hfd]

theorem hasNode_loop_mono (sg : ProvGraph) (opid : String) (ds : List DataItem)
    (u : String) : ∀ g : ProvGraph, g.hasNode u = true →
    (addProvFromSubTracerLoop sg opid g ds).1.hasNode u = true := by
  induction ds with
  | nil => intro g hu; exact hu
  | cons d rest ih =>
    intro g hu
    cases hg : g.getNode d.uid with
    | some node =>
      by_cases hop : node.operation_id = some opid
      · simp only [addProvFromSubTracerLoop, hg, if_pos hop]
        exact ih g hu
      · simp only [addProvFromSubTracerLoop, hg, if_neg hop]
        exact hu
    | none =>
      cases hfd : _add_prov_from_sub_tracer_for_data_item g d.uid opid sg with
      | some g2 =>
        simp only [addProvFromSubTracerLoop, hg, hfd]
        exact ih g2 (hasNode_forDataItem g d.uid opid sg g2 u hfd (Or.inl hu))
      | none =>
        simp only [addProvFromSubTracerLoop, hg, hfd]
        exact hu

/-- A successful loop run leaves a node for every processed output item. -/
theorem loop_success_hasNode (sg : ProvGraph) (opid : String) (ds : List DataItem) :
    ∀ (g g1 : ProvGraph), addProvFromSubTracerLoop sg opid g ds = (g1, none) →
    ∀ x ∈ ds, g1.hasNode x.uid = true := by
  induction ds with
  | nil =>
    intro g g1 h x hx
    cases hx
  | cons d rest ih =>
    intro g g1 h x hx
    cases hg : g.getNode d.uid with
    | some node =>
      by_cases hop : node.operation_id = some opid
      · simp only [addProvFromSubTracerLoop, hg, if_pos hop] at h
        rcases List.mem_cons.1 hx with hx1 | hx2
        · subst hx1
          have hgu : g.hasNode x.uid = true := hasNode_true_of_getNode_some g x.uid node hg
          have := hasNode_loop_mono sg opid rest x.uid g hgu
          rw [h] at this
          exact this
        · exact ih g g1 h x hx2
      · simp only [addProvFromSubTracerLoop, hg, if_neg hop] at h
        cases h
    | none =>
      cases hfd : _add_prov_from_sub_tracer_for_data_item g d.uid opid sg with
      | some g2 =>
        simp only [addProvFromSubTracerLoop, hg, hfd] at h
        rcases List.mem_cons.1 hx with hx1 | hx2
        · subst hx1
          have hg2 : g2.hasNode x.uid = true :=
            hasNode_forDataItem g x.uid opid sg g2 x.uid hfd (Or.inr rfl)
          have := hasNode_loop_mono sg opid rest x.uid g2 hg2
          rw [h] at this
          exact this
        · exact ih g2 g1 h x hx2
      | none =>
        simp only [addProvFromSubTracerLoop, hg, hfd] at h
        cases h

/-- A successful loop prefix composes with the remainder of the list. -/
theorem loop_append (sg : ProvGraph) (opid : String) (xs : List DataItem) :
    ∀ (ys : List DataItem) (g g1 : ProvGraph),
      addProvFromSubTracerLoop sg opid g xs = (g1, none) →
      addProvFromSubTracerLoop sg opid g (xs ++ ys) =
        addProvFromSubTracerLoop sg opid g1 ys := by
  induction xs with
  | nil =>
    intro ys g g1 h
    cases h
    rfl
  | cons d rest ih =>
    intro ys g g1 h
    cases hg : g.getNode d.uid with
    | some node =>
      by_cases hop : node.operation_id = some opid
      · simp only [addProvFromSubTracerLoop, hg, if_pos hop] at h ⊢
        exact ih ys g g1 h
      · simp only [addProvFromSubTracerLoop, hg, if_neg hop] at h
        cases h
    | none =>
      cases hfd : _add_prov_from_sub_tracer_for_data_item g d.uid opid sg with
      | some g2 =>
        simp only [addProvFromSubTracerLoop, hg, hfd] at h ⊢
        exact ih ys g2 g1 h
      | none =>
        simp only [addProvFromSubTracerLoop, hg, hfd] at h
        cases h

theorem hasSubGraph_addSubGraph (g : ProvGraph) (opId : String) (sub : ProvGraph) :
    (g.addSubGraph opId sub).hasSubGraph opId = true := by
  rw [ProvGraph.addSubGraph, ProvGraph.hasSubGraph]
  simp [ProvGraph.subGraphs]

/-- C10: `add_prov_from_sub_tracer` is not atomic on error — when a later
output item conflicts, the call raises but the operation description is
stored, the sub-graph is already attached (visible through
`has_sub_prov_tracer`), and a node exists for every output item processed
before the conflicting one. -/
theorem C10_collapse_not_atomic (t : ProvTracer) (ds1 : List DataItem) (d : DataItem)
    (ds2 : List DataItem) (op : OperationDescription) (sub : ProvTracer)
    (g1 : ProvGraph) (node : ProvNode)
    (hsub : t.graph.hasSubGraph op.uid = false)
    (hloop : addProvFromSubTracerLoop sub.graph op.uid
      (t.graph.addSubGraph op.uid sub.graph) ds1 = (g1, none))
    (hnode : g1.getNode d.uid = some node)
    (hop : node.operation_id ≠ some op.uid) :
    add_prov_from_sub_tracer t (ds1 ++ d :: ds2) op sub =
      ({ store := t.store.storeOpDesc op, graph := g1 },
       some ("Trying to add provenance for sub graph for data item with uid "
         ++ d.uid ++ " that already has a node, but with different operation_id"))
    ∧ g1.hasSubGraph op.uid = true
    ∧ has_sub_prov_tracer (add_prov_from_sub_tracer t (ds1 ++ d :: ds2) op sub).1 op.uid = true
    ∧ ∀ x ∈ ds1, (add_prov_from_sub_tracer t (ds1 ++ d :: ds2) op sub).1.graph.hasNode x.uid
        = true := by
  have hsubg1 : g1.hasSubGraph op.uid = true := by
    have h1 := loop_subGraphs sub.graph op.uid ds1 (t.graph.addSubGraph op.uid sub.graph)
    rw [hloop] at h1
    simp only at h1
    rw [ProvGraph.hasSubGraph, h1]
    exact hasSubGraph_addSubGraph t.graph op.uid sub.graph
  have hmain : add_prov_from_sub_tracer t (ds1 ++ d :: ds2) op sub =
      ({ store := t.store.storeOpDesc op, graph := g1 },
       some ("Trying to add provenance for sub graph for data item with uid "
         ++ d.uid ++ " that already has a node, but with different operation_id")) := by
    rw [add_prov_from_sub_tracer, if_neg (by simp [hsub])]
    simp only [loop_append sub.graph op.uid ds1 (d :: ds2)
      (t.graph.addSubGraph op.uid sub.graph) g1 hloop]
    simp only [addProvFromSubTracerLoop, hnode, if_neg hop]
  refine ⟨hmain, hsubg1, ?_, ?_⟩
  · rw [hmain]
    exact hsubg1
  · intro x hx
    rw [hmain]
    exact loop_success_hasNode sub.graph op.uid ds1 _ g1 hloop x hx

/-- Witness for C10: collapsing `[out, ext]` under `opC` — `out`
succeeds, then `ext` (already present as a stub with no operation) makes
the call raise, with the sub-graph attached and the `out` node added. -/
theorem C10_collapse_not_atomic_witness :
    has_sub_prov_tracer (add_prov_from_sub_tracer chainParent [outItem, extItem]
      opC chainSub).1 "opC" = true
    ∧ (add_prov_from_sub_tracer chainParent [outItem, extItem] opC chainSub).1.graph.hasNode
        "out" = true
    ∧ (add_prov_from_sub_tracer chainParent [outItem, extItem] opC chainSub).2 =
        some ("Trying to add provenance for sub graph for data item with uid "
          ++ "ext" ++ " that already has a node, but with different operation_id") := by
  have h := C10_collapse_not_atomic chainParent [outItem] extItem [] opC chainSub
    (addProvFromSubTracerLoop chainSub.graph "opC"
      (chainParent.graph.addSubGraph "opC" chainSub.graph) [outItem]).1
    ⟨"ext", none, [], ["out"]⟩ (by decide) (by rfl) (by decide) (by decide)
  simp only [List.cons_append, List.nil_append] at h
  refine ⟨h.2.2.1, h.2.2.2 outItem (by simp), ?_⟩
  rw [h.1]
  simp [extItem]

/-! ## Store lemmas (C4) -/

theorem op_descs_storeDataItem (st : ProvStore) (d : DataItem) :
    (st.storeDataItem d).op_descs = st.op_descs := by
  rw [ProvStore.storeDataItem]
  split <;> rfl

theorem op_descs_foldl_store (l : List DataItem) :
    ∀ st : ProvStore, (l.foldl (fun acc s => acc.storeDataItem s) st).op_descs
      = st.op_descs := by
  induction l with
  | nil => intro st; rfl
  | cons s l ih =>
    intro st
    rw [List.foldl_cons, ih, op_descs_storeDataItem]

theorem data_items_storeOpDesc (st : ProvStore) (op : OperationDescription) :
    (st.storeOpDesc op).data_items = st.data_items := by
  rw [ProvStore.storeOpDesc]
  split <;> rfl

/-- Any entry found for a uid IS the unique data item with that uid. -/
theorem getDataItem_eq_some_uid (st : ProvStore) (u : String)
    (h : st.data_items.any (fun x => x.uid = u) = true) :
    st.getDataItem u = some ⟨u⟩ := by
  rw [ProvStore.getDataItem]
  cases hf : st.data_items.find? (fun x => x.uid = u) with
  | none =>
    rw [List.find?_eq_none] at hf
    rw [List.any_eq_true] at h
    obtain ⟨x, hx, hpx⟩ := h
    exact absurd hpx (by simpa using hf x hx)
  | some y =>
    have hy := List.find?_some hf
    simp only [decide_eq_true_eq] at hy
    cases y
    simp_all

theorem any_storeDataItem_self (st : ProvStore) (d : DataItem) :
    (st.storeDataItem d).data_items.any (fun x => x.uid = d.uid) = true := by
  rw [ProvStore.storeDataItem]
  by_cases h : st.data_items.any (fun x => x.uid = d.uid) = true
  · rw [if_pos h]
    exact h
  · rw [if_neg h]
    simp only [List.any_append]
    simp

theorem any_storeDataItem_mono (st : ProvStore) (d : DataItem) (p : DataItem → Bool)
    (h : st.data_items.any p = true) : (st.storeDataItem d).data_items.any p = true := by
  rw [ProvStore.storeDataItem]
  split
  · exact h
  · simp only [List.any_append, h]
    rfl

theorem any_foldl_store_mono (l : List DataItem) (p : DataItem → Bool) :
    ∀ st : ProvStore, st.data_items.any p = true →
    (l.foldl (fun acc s => acc.storeDataItem s) st).data_items.any p = true := by
  induction l with
  | nil => exact fun st h => h
  | cons s l ih =>
    intro st h
    rw [List.foldl_cons]
    exact ih _ (any_storeDataItem_mono st s p h)

theorem any_foldl_store_mem (l : List DataItem) (s : DataItem) (hs : s ∈ l) :
    ∀ st : ProvStore,
    (l.foldl (fun acc x => acc.storeDataItem x) st).data_items.any
      (fun x => x.uid = s.uid) = true := by
  induction l with
  | nil => cases hs
  | cons a l ih =>
    intro st
    rw [List.foldl_cons]
    rcases List.mem_cons.1 hs with h | h
    · subst h
      exact any_foldl_store_mono l _ _ (any_storeDataItem_self st s)
    · exact ih h _

theorem getOpDesc_storeOpDesc (st : ProvStore) (op : OperationDescription)
    (hop : ∀ od ∈ st.op_descs, od.uid = op.uid → od = op) :
    (st.storeOpDesc op).getOpDesc op.uid = some op := by
  rw [ProvStore.storeOpDesc]
  by_cases h : st.op_descs.any (fun x => x.uid = op.uid) = true
  · rw [if_pos h, ProvStore.getOpDesc]
    cases hf : st.op_descs.find? (fun x => x.uid = op.uid) with
    | none =>
      rw [List.find?_eq_none] at hf
      rw [List.any_eq_true] at h
      obtain ⟨x, hx, hpx⟩ := h
      exact absurd hpx (by simpa using hf x hx)
    | some y =>
      have hy := List.find?_some hf
      simp only [decide_eq_true_eq] at hy
      rw [hop y (List.mem_of_find?_eq_some hf) hy]
  · rw [if_neg h, ProvStore.getOpDesc]
    have hfalse : st.op_descs.find? (fun x => x.uid = op.uid) = none := by
      rw [List.find?_eq_none]
      intro x hx
      by_contra hc
      exact h (List.any_eq_true.2 ⟨x, hx, by simpa using hc⟩)
    simp only [List.find?_append, hfalse]
    simp [List.find?]

/-- Evaluating the source/derived lookups of `_build_prov_from_node`. -/
theorem mapM_getOrError (st : ProvStore) (l : List DataItem)
    (h : ∀ s ∈ l, st.getDataItem s.uid = some s) :
    (l.map (fun s => s.uid)).mapM
      (fun uid => getOrError (ProvError.storeMissing uid) (st.getDataItem uid))
      = Except.ok l := by
  induction l with
  | nil => rfl
  | cons s l ih =>
    rw [List.map_cons, List.mapM_cons, h s (by simp), ih (fun x hx => h x (by simp [hx]))]
    rfl

/-! ## Exact node shape when the new node is not its own source -/

theorem find?_id_addDerivedTo_other (ns : List ProvNode) (src target uid : String)
    (node : ProvNode) (h : ns.find? (fun n => n.data_item_id = uid) = some node)
    (hne : uid ≠ src) :
    (addDerivedTo ns src target).find? (fun n => n.data_item_id = uid) = some node := by
  induction ns with
  | nil => simp [List.find?] at h
  | cons m ms ih =>
    simp only [addDerivedTo, List.map] at *
    by_cases hm : m.data_item_id = uid
    · rw [List.find?_cons_of_pos _ (by simp [hm])] at h
      injection h with h2
      subst h2
      have hfm : (if m.data_item_id = src
          then { m with derived_ids := m.derived_ids ++ [target] } else m) = m := by
        rw [if_neg]
        rw [hm]
        exact hne
      rw [hfm, List.find?_cons_of_pos _ (by simp [hm])]
    · rw [List.find?_cons_of_neg _ (by simp [hm])] at h
      rw [List.find?_cons_of_neg _ ?_]
      · exact ih h
      · by_cases hc2 : m.data_item_id = src
        · simp only [if_pos hc2]
          simp [← hc2, hm]
        · simp [if_neg hc2, hm]

theorem find?_foldl_addNode_notMem (newId : String) (srcIds : List String) (uid : String)
    (hmem : uid ∉ srcIds) :
    ∀ (ns : List ProvNode) (node : ProvNode),
      ns.find? (fun n => n.data_item_id = uid) = some node →
      (srcIds.foldl (addNodeStep newId) ns).find? (fun n => n.data_item_id = uid)
        = some node := by
  induction srcIds with
  | nil => exact fun ns node h => h
  | cons src rest ih =>
    intro ns node h
    have hne : uid ≠ src := fun hq => hmem (by simp [hq])
    have hmem2 : uid ∉ rest := fun hq => hmem (by simp [hq])
    rw [List.foldl_cons, addNodeStep]
    by_cases hc : ns.any (fun n => n.data_item_id = src) = true
    · rw [if_pos hc]
      exact ih hmem2 _ node (find?_id_addDerivedTo_other ns src newId uid node h hne)
    · rw [if_neg hc]
      exact ih hmem2 _ node (find?_id_append ns _ uid node h)

/-- With a fresh id that does not list itself as a source, `addNode`
registers exactly the node `⟨uid, opid, srcIds, []⟩`. -/
theorem getNode_addNode_notMem (g : ProvGraph) (uid : String) (opid : Option String)
    (srcIds : List String) (h : g.hasNode uid = false) (hmem : uid ∉ srcIds) :
    (g.addNode uid opid srcIds).getNode uid = some ⟨uid, opid, srcIds, []⟩ := by
  rw [ProvGraph.addNode, ProvGraph.getNode]
  have hnone : List.find? (fun n => decide (n.data_item_id = uid)) g.nodes = none :=
    getNode_eq_none_of_hasNode_false g uid h
  exact find?_foldl_addNode_notMem uid srcIds uid hmem _ _
    (by rw [List.find?_append, hnone]; simp [List.find?])

/-- C4: `get_prov` on any id with no node in the tracer's own top-level
graph — including ids recorded only in a sub-tracer — raises the
distinct, catchable not-found error; on tracked ids it returns the `Prov`
joining the graph node against the shared store, as on the concrete
collapsed pipeline and after any successful `add_prov`. -/
theorem C4_get_prov_not_found :
    (∀ (t : ProvTracer) (id : String), t.graph.hasNode id = false →
        get_prov t id = .error (.notFound id))
  ∧ (has_prov chainCollapsed.1 "mid" = false
     ∧ get_prov chainCollapsed.1 "mid" = .error (.notFound "mid")
     ∧ (get_sub_prov_tracer chainCollapsed.1 "opC").map (fun v => get_prov v "mid")
        = some (.ok ⟨midItem, some opA, [extItem], [outItem]⟩)
     ∧ get_prov chainCollapsed.1 "out" = .ok ⟨outItem, some opC, [extItem], []⟩)
  ∧ (∀ (t t' : ProvTracer) (d : DataItem) (op : OperationDescription) (srcs : List DataItem),
      add_prov t d op srcs = (t', none) →
      (∀ od ∈ t.store.op_descs, od.uid = op.uid → od = op) →
      d.uid ∉ srcs.map (fun s => s.uid) →
      get_prov t' d.uid = .ok ⟨d, some op, srcs, []⟩) := by
  refine ⟨?_, ⟨by decide, by rfl, by rfl, by rfl⟩, ?_⟩
  · intro t id h
    rw [get_prov, getNode_eq_none_of_hasNode_false t.graph id h]
  · intro t t' d op srcs hadd hop hself
    rw [add_prov] at hadd
    by_cases hc : t.graph.hasNode d.uid = true
    · rw [if_pos hc] at hadd
      cases hadd
    · rw [if_neg hc] at hadd
      have hcf : t.graph.hasNode d.uid = false := by
        revert hc
        cases t.graph.hasNode d.uid <;> simp
      have ht' := congrArg Prod.fst hadd
      simp only at ht'
      subst ht'
      have hgetnode := getNode_addNode_notMem t.graph d.uid (some op.uid)
        (srcs.map (fun s => s.uid)) hcf hself
      simp only [get_prov, hgetnode]
      have hbase : ∀ st2 : ProvStore,
          (srcs.foldl (fun acc s => acc.storeDataItem s) st2).data_items.any
            (fun x => x.uid = d.uid) = true →
          (srcs.foldl (fun acc s => acc.storeDataItem s) st2).getDataItem d.uid
            = some ⟨d.uid⟩ :=
        fun st2 hany => getDataItem_eq_some_uid _ d.uid hany
      have hd_item : (srcs.foldl (fun acc s => acc.storeDataItem s)
          ((t.store.storeDataItem d).storeOpDesc op)).getDataItem d.uid = some d := by
        have hany : ((t.store.storeDataItem d).storeOpDesc op).data_items.any
            (fun x => x.uid = d.uid) = true := by
          rw [data_items_storeOpDesc]
          exact any_storeDataItem_self t.store d
        have := getDataItem_eq_some_uid
          (srcs.foldl (fun acc s => acc.storeDataItem s)
            ((t.store.storeDataItem d).storeOpDesc op)) d.uid
          (any_foldl_store_mono srcs _ _ hany)
        rw [this]
      have hop_desc : (srcs.foldl (fun acc s => acc.storeDataItem s)
          ((t.store.storeDataItem d).storeOpDesc op)).getOpDesc op.uid = some op := by
        rw [ProvStore.getOpDesc, op_descs_foldl_store]
        have hop2 : ∀ od ∈ (t.store.storeDataItem d).op_descs, od.uid = op.uid → od = op := by
          rw [op_descs_storeDataItem]
          exact hop
        exact getOpDesc_storeOpDesc (t.store.storeDataItem d) op hop2
      have hsrcs : ∀ s ∈ srcs, (srcs.foldl (fun acc s => acc.storeDataItem s)
          ((t.store.storeDataItem d).storeOpDesc op)).getDataItem s.uid = some s := by
        intro s hs
        have := getDataItem_eq_some_uid
          (srcs.foldl (fun acc x => acc.storeDataItem x)
            ((t.store.storeDataItem d).storeOpDesc op)) s.uid
          (any_foldl_store_mem srcs s hs _)
        rw [this]
      simp only [_build_prov_from_node, hd_item, hop_desc]
      rw [mapM_getOrError _ srcs hsrcs]
      rfl

/-- Witness for C4: an unknown id raises the catchable not-found error on
the concrete collapsed tracer, and a fresh `add_prov` is joined back from
the store by `get_prov`. -/
theorem C4_get_prov_not_found_witness :
    get_prov chainCollapsed.1 "unknown" = .error (.notFound "unknown")
    ∧ get_prov (add_prov createProvTracer ⟨"a"⟩ ⟨"opZ", "Z"⟩ [⟨"s"⟩]).1 "a"
        = .ok ⟨⟨"a"⟩, some ⟨"opZ", "Z"⟩, [⟨"s"⟩], []⟩ := by
  constructor
  · exact C4_get_prov_not_found.1 chainCollapsed.1 "unknown" (by decide)
  · exact C4_get_prov_not_found.2.2 createProvTracer
      (add_prov createProvTracer ⟨"a"⟩ ⟨"opZ", "Z"⟩ [⟨"s"⟩]).1 ⟨"a"⟩ ⟨"opZ", "Z"⟩ [⟨"s"⟩]
      (by rfl) (by decide) (by decide)

end Medkit
